import Mathlib

set_option maxHeartbeats 1000000
set_option maxRecDepth 4000
set_option linter.unusedVariables false

/-!
Verification development for the PaperAnalyzerAgent repository.

The repository has two source files:
  * `src/ocr_preprocessor.py` — `OCRProcessor`: a thin wrapper around an
    external OCR API with an on-disk cache keyed by a hash of the file;
  * `src/paper_parser.py` — `PaperParser`: regular-expression heuristics
    that turn the OCR output (markdown per page) into a structured paper
    representation.

This file shallowly embeds both modules.  Python dynamic values are
modelled by the inductive `Json` below (the repository only ever handles
JSON-shaped data: the OCR cache stores JSON, and the parser consumes it).
Python-level operations that can raise are modelled in an `Except` monad;
the `try/except` blocks of the source become explicit `match`es on the
`Except` result.  Strings are modelled by Lean `String` (Python string
indices are code points, matching `List Char` positions).  The model is
restricted to integer JSON numbers; this restriction is noted where it
matters.
-/

namespace PaperAnalyzer

/-! ### Python JSON-shaped values -/

/-- A Python value as handled by this repository: anything `json.loads`
can produce (restricted to integer numbers). -/
inductive Json where
  | null : Json
  | bool (b : Bool) : Json
  | num (n : Int) : Json
  | str (s : String) : Json
  | arr (elems : List Json) : Json
  | obj (fields : List (String × Json)) : Json
deriving Repr

mutual

/-- Decidable structural equality on `Json`. -/
def Json.decEq : (a b : Json) → Decidable (a = b)
  | .null, .null => isTrue rfl
  | .bool a, .bool b =>
      if h : a = b then isTrue (by rw [h]) else isFalse (fun hh => h (Json.bool.inj hh))
  | .num a, .num b =>
      if h : a = b then isTrue (by rw [h]) else isFalse (fun hh => h (Json.num.inj hh))
  | .str a, .str b =>
      if h : a = b then isTrue (by rw [h]) else isFalse (fun hh => h (Json.str.inj hh))
  | .arr a, .arr b =>
      match Json.decEqList a b with
      | isTrue h => isTrue (by rw [h])
      | isFalse h => isFalse (fun hh => h (Json.arr.inj hh))
  | .obj a, .obj b =>
      match Json.decEqFields a b with
      | isTrue h => isTrue (by rw [h])
      | isFalse h => isFalse (fun hh => h (Json.obj.inj hh))
  | .null, .bool _ | .null, .num _ | .null, .str _ | .null, .arr _ | .null, .obj _
  | .bool _, .null | .bool _, .num _ | .bool _, .str _ | .bool _, .arr _ | .bool _, .obj _
  | .num _, .null | .num _, .bool _ | .num _, .str _ | .num _, .arr _ | .num _, .obj _
  | .str _, .null | .str _, .bool _ | .str _, .num _ | .str _, .arr _ | .str _, .obj _
  | .arr _, .null | .arr _, .bool _ | .arr _, .num _ | .arr _, .str _ | .arr _, .obj _
  | .obj _, .null | .obj _, .bool _ | .obj _, .num _ | .obj _, .str _ | .obj _, .arr _ =>
      isFalse (fun h => nomatch h)

/-- Decidable equality on lists of `Json`. -/
def Json.decEqList : (a b : List Json) → Decidable (a = b)
  | [], [] => isTrue rfl
  | x :: xs, y :: ys =>
      match Json.decEq x y, Json.decEqList xs ys with
      | isTrue h1, isTrue h2 => isTrue (by rw [h1, h2])
      | isFalse h1, _ => isFalse (fun hh => h1 (List.cons.inj hh).1)
      | _, isFalse h2 => isFalse (fun hh => h2 (List.cons.inj hh).2)
  | [], _ :: _ => isFalse (fun h => nomatch h)
  | _ :: _, [] => isFalse (fun h => nomatch h)

/-- Decidable equality on object field lists. -/
def Json.decEqFields : (a b : List (String × Json)) → Decidable (a = b)
  | [], [] => isTrue rfl
  | (k, v) :: xs, (l, w) :: ys =>
      if hk : k = l then
        match Json.decEq v w, Json.decEqFields xs ys with
        | isTrue h1, isTrue h2 => isTrue (by rw [hk, h1, h2])
        | isFalse h1, _ =>
            isFalse (fun hh => h1 (congrArg Prod.snd (List.cons.inj hh).1))
        | _, isFalse h2 => isFalse (fun hh => h2 (List.cons.inj hh).2)
      else isFalse (fun hh => hk (congrArg Prod.fst (List.cons.inj hh).1))
  | [], _ :: _ => isFalse (fun h => nomatch h)
  | _ :: _, [] => isFalse (fun h => nomatch h)

end

instance : DecidableEq Json := Json.decEq

/-- Decidable equality of `Except` results. -/
def exceptDecEq {ε α : Type} [DecidableEq ε] [DecidableEq α] :
    (a b : Except ε α) → Decidable (a = b)
  | .ok a, .ok b =>
      if h : a = b then isTrue (by rw [h]) else isFalse (fun hh => h (Except.ok.inj hh))
  | .error a, .error b =>
      if h : a = b then isTrue (by rw [h]) else isFalse (fun hh => h (Except.error.inj hh))
  | .ok _, .error _ => isFalse (fun h => nomatch h)
  | .error _, .ok _ => isFalse (fun h => nomatch h)

instance {ε α : Type} [DecidableEq ε] [DecidableEq α] : DecidableEq (Except ε α) :=
  exceptDecEq

/-- Python truthiness (`bool(x)`) of a JSON-shaped value: `None`, `False`,
`0`, `""`, `[]` and `{}` are falsy, everything else is truthy. -/
def pyTruthy : Json → Bool
  | .null => false
  | .bool b => b
  | .num n => n != 0
  | .str s => s != ""
  | .arr xs => !xs.isEmpty
  | .obj kvs => !kvs.isEmpty

/-! ### `src/ocr_preprocessor.py` — the OCR wrapper

`OCRProcessor` talks to an external API (`mistralai`).  The embedding
abstracts the API by an environment `OcrEnv` describing what each external
call would return on this run (`none` models the call raising, which the
source converts to `None` in its `try/except` blocks), and instruments
`get_ocr_result` with a trace counting how often each external step is
attempted and which responses are written to the cache. -/

/-- What `OCRProcessor._get_cache_path` observes of the file at
`file_path`: its byte contents (`open(file_path, "rb").read()`) and the
decimal rendering of `os.stat(file_path).st_mtime`.  For a regular file
`os.stat(file_path).st_size` equals the byte length of the contents, so
the size is not a separate field. -/
structure FileView where
  content : List Nat
  mtimeRepr : String
deriving DecidableEq, Repr

/-- `OCRProcessor._get_cache_path`, success path:

    file_hash = hashlib.md5(f.read()).hexdigest()
    file_hash += f"_\x7bfile_stats.st_size\x7d_\x7bfile_stats.st_mtime\x7d"
    return self.cache_dir / f"\x7bfile_hash\x7d.json"

The MD5 hex digest is an external library function and is passed in as a
parameter `md5hex` (an arbitrary deterministic function of the byte
contents, as `hashlib.md5` is). -/
def get_cache_path (md5hex : List Nat → String) (cacheDir : String) (f : FileView) : String :=
  cacheDir ++ "/" ++ (md5hex f.content ++ "_" ++ toString f.content.length ++ "_"
    ++ f.mtimeRepr) ++ ".json"

/-- The external-API environment for one `get_ocr_result` call.  `U`, `S`,
`R` are the (opaque) types of the SDK objects: the uploaded-file handle,
the signed-URL object, and the OCR response.  A `none` field models the
corresponding client call raising an exception (which the source's
`try/except` turns into returning `None`).  `cacheData` is the result of
`_check_cache`: the JSON value loaded from the cache file when it exists
and loads, else `none`. -/
structure OcrEnv (U S R : Type) where
  cacheData : Option Json
  uploadResult : Option U
  signedUrlResult : U → Option S
  ocrResult : S → Option R

/-- The value returned by `get_ocr_result` when it does not return `None`:
either the cached JSON data, or the fresh OCR response object. -/
inductive OcrOutcome (R : Type) where
  | cached (data : Json) : OcrOutcome R
  | fresh (response : R) : OcrOutcome R
deriving DecidableEq, Repr

/-- Instrumentation of one `get_ocr_result` call: how many times each
external step (`upload_file`, `get_signed_url`, `process_ocr`) was
attempted, and the responses passed to `_save_to_cache`. -/
structure OcrTrace (R : Type) where
  uploadCalls : Nat
  signedUrlCalls : Nat
  ocrCalls : Nat
  cacheWrites : List R
deriving DecidableEq, Repr

/-- The cache-miss tail of `OCRProcessor.get_ocr_result`
(src/ocr_preprocessor.py lines 85-98): upload, signed URL, OCR, save to
cache; each step's failure returns `None` at once. -/
def get_ocr_result_miss {U S R : Type} (env : OcrEnv U S R) :
    Option (OcrOutcome R) × OcrTrace R :=
  match env.uploadResult with
  | none => (none, ⟨1, 0, 0, []⟩)
  | some uploaded_pdf =>
    match env.signedUrlResult uploaded_pdf with
    | none => (none, ⟨1, 1, 0, []⟩)
    | some signed_url =>
      match env.ocrResult signed_url with
      | none => (none, ⟨1, 1, 1, []⟩)
      | some ocr_response => (some (.fresh ocr_response), ⟨1, 1, 1, [ocr_response]⟩)

/-- `OCRProcessor.get_ocr_result` (src/ocr_preprocessor.py lines 76-98).
`cache_result = self._check_cache(file_path)` is `env.cacheData`; the
source tests it with Python truthiness (`if cache_result:`), so a cache
file holding a falsy JSON value falls through to the miss path. -/
def get_ocr_result {U S R : Type} (env : OcrEnv U S R) :
    Option (OcrOutcome R) × OcrTrace R :=
  match env.cacheData with
  | some cache_result =>
    if pyTruthy cache_result then (some (.cached cache_result), ⟨0, 0, 0, []⟩)
    else get_ocr_result_miss env
  | none => get_ocr_result_miss env

/-! ### Python primitive operations on JSON-shaped values

Operations that can raise (`TypeError`, `KeyError`, `AttributeError`,
`IndexError`) return `Except Unit`; the distinction between exception
classes is irrelevant because every `except` block of the source catches
bare `Exception`. -/

/-- Whether the pattern is a prefix of the character list. -/
def charsStartWith : List Char → List Char → Bool
  | _, [] => true
  | [], _ :: _ => false
  | c :: cs, p :: ps => c == p && charsStartWith cs ps

/-- Leftmost index at which `pat` occurs in `s` (Python `str.find`, as an
`Option`; `Python` returns `-1` for `none`).  The empty pattern occurs at
index 0, as in Python. -/
def charsFindSub : List Char → List Char → Option Nat
  | s, pat =>
    if charsStartWith s pat then some 0
    else
      match s with
      | [] => none
      | _ :: cs => (charsFindSub cs pat).map (· + 1)

/-- Python `s.find(sub)`, `none` for not found. -/
def strFind (s sub : String) : Option Nat := charsFindSub s.data sub.data

/-- Python `sub in s` on strings. -/
def strContainsSub (s sub : String) : Bool := (strFind s sub).isSome

/-- The character set Python `str.strip()` removes. -/
def pyIsSpace (c : Char) : Bool :=
  c == ' ' || c == '\t' || c == '\n' || c == '\r' || c == '\x0b' || c == '\x0c'

/-- Python `s.strip()` (ASCII whitespace; the repository's inputs are
markdown text). -/
def pyStrip (s : String) : String :=
  String.mk (((s.data.dropWhile pyIsSpace).reverse.dropWhile pyIsSpace).reverse)

/-- Python `s.lower()` (ASCII model). -/
def pyLower (s : String) : String := String.mk (s.data.map Char.toLower)

/-- Python `s[a:]`. -/
def pyDropStr (s : String) (a : Nat) : String := String.mk (s.data.drop a)

/-- Python `s[:b]` for `b ≥ 0`. -/
def pyTakeStr (s : String) (b : Nat) : String := String.mk (s.data.take b)

/-- Python `s[a:b]` for `0 ≤ a ≤ b`. -/
def pySlice (s : String) (a b : Nat) : String := String.mk ((s.data.drop a).take (b - a))

/-- Python `s.split(sep)` for a nonempty separator, one round per
character of fuel (each round consumes at least one character, so the
fuel supplied by `pySplit` never runs out early). -/
def splitSepAux (sep : List Char) : Nat → List Char → List Char → List (List Char)
  | 0, _, acc => [acc.reverse]
  | fuel + 1, s, acc =>
    match s with
    | [] => [acc.reverse]
    | c :: rest =>
      if sep ≠ [] && charsStartWith s sep then
        acc.reverse :: splitSepAux sep fuel (s.drop sep.length) []
      else
        splitSepAux sep fuel rest (c :: acc)

/-- Python `s.split(sep)` (the source only splits on nonempty
separators). -/
def pySplit (s sep : String) : List String :=
  (splitSepAux sep.data (s.data.length + 1) s.data []).map String.mk

/-- Python `s.startswith(pre)`. -/
def pyStartsWith (s pre : String) : Bool := charsStartWith s.data pre.data

/-- Python `s.split(sep, 1)`: split at the first occurrence of `sep` only. -/
def pySplit1 (s sep : String) : List String :=
  match strFind s sep with
  | none => [s]
  | some i => [pyTakeStr s i, pyDropStr s (i + sep.length)]

/-- Python `k in d` for a string `k`: key test on a dict, membership on a
list, substring test on a string; `TypeError` otherwise. -/
def pyInStr (k : String) : Json → Except Unit Bool
  | .obj kvs => .ok (kvs.any (fun kv => kv.1 == k))
  | .arr xs => .ok (xs.any (fun x => x == Json.str k))
  | .str s => .ok (strContainsSub s k)
  | _ => .error ()

/-- Python `len(d)`: length of a string, list or dict; `TypeError`
otherwise. -/
def pyLen : Json → Except Unit Nat
  | .str s => .ok s.length
  | .arr xs => .ok xs.length
  | .obj kvs => .ok kvs.length
  | _ => .error ()

/-- Python `d[k]` for a string key `k`: dict lookup (`KeyError` when
absent); `TypeError` on every other value. -/
def pyGetStr (d : Json) (k : String) : Except Unit Json :=
  match d with
  | .obj kvs =>
    match kvs.lookup k with
    | some v => .ok v
    | none => .error ()
  | _ => .error ()

/-- Python `d[0]`: first element of a list (`IndexError` when empty),
first character of a string; a dict raises `KeyError` (its keys are
strings, never `0`); `TypeError` otherwise. -/
def pyGetIdx0 : Json → Except Unit Json
  | .arr (x :: _) => .ok x
  | .arr [] => .error ()
  | .str s =>
    match s.data with
    | c :: _ => .ok (.str (String.mk [c]))
    | [] => .error ()
  | _ => .error ()

/-- Python `d.get(k, default)`: only dicts have `.get`
(`AttributeError` otherwise). -/
def pyDictGet (d : Json) (k : String) (dflt : Json) : Except Unit Json :=
  match d with
  | .obj kvs => .ok ((kvs.lookup k).getD dflt)
  | _ => .error ()

/-- The value must be a string (string methods such as `.split`, string
concatenation, `re.search` raise otherwise). -/
def asStr : Json → Except Unit String
  | .str s => .ok s
  | _ => .error ()

/-- Python `for x in d`: elements of a list, characters of a string (as
one-character strings), keys of a dict; `TypeError` otherwise. -/
def pyIter : Json → Except Unit (List Json)
  | .arr xs => .ok xs
  | .str s => .ok (s.data.map (fun c => .str (String.mk [c])))
  | .obj kvs => .ok (kvs.map (fun kv => .str kv.1))
  | _ => .error ()

/-- Python dict keys must be hashable: lists and dicts are not. -/
def pyHashable : Json → Bool
  | .arr _ => false
  | .obj _ => false
  | _ => true

/-- Python key equality identifies `True` with `1` and `False` with `0`. -/
def normKey : Json → Json
  | .bool b => .num (if b then 1 else 0)
  | j => j

/-- Python `d[k] = v` on a dict with arbitrary (hashable) keys: an
existing key keeps its position (and original key object) and its value is
replaced; a new key is appended (insertion order). -/
def pyDictAssign (d : List (Json × Json)) (k v : Json) : List (Json × Json) :=
  match d with
  | [] => [(k, v)]
  | (k0, v0) :: rest =>
    if normKey k0 == normKey k then (k0, v) :: rest
    else (k0, v0) :: pyDictAssign rest k v

/-- Python `d[k] = v` on a dict with string keys (same semantics as
`pyDictAssign`, specialised to the string-keyed dicts of the source). -/
def setField (m : List (String × Json)) (k : String) (v : Json) : List (String × Json) :=
  match m with
  | [] => [(k, v)]
  | (k0, v0) :: rest =>
    if k0 == k then (k0, v) :: rest
    else (k0, v0) :: setField rest k v

/-- Map an exception to one carrying the state accumulated so far (the
source's `except` blocks return the partially built value). -/
def liftE {α β : Type} (acc : α) : Except Unit β → Except α β
  | .ok b => .ok b
  | .error _ => .error acc

/-! ### A small backtracking regex engine with CPython `re` semantics

Only the constructs occurring in the source's patterns are supported:
single-character classes, concatenation, alternation (left branch
preferred), greedy and lazy repetition, numbered capture groups, positive
lookahead, and the anchors `^` and `$` (with and without `re.MULTILINE`).
`reRun` enumerates every way the pattern can match at the current
position, most preferred first (CPython's backtracking order); callers
take the head. -/

inductive RE where
  | eps : RE
  | cls (p : Char → Bool) : RE
  | cat (a b : RE) : RE
  | alt (a b : RE) : RE
  | starG (r : RE) : RE
  | starL (r : RE) : RE
  | group (n : Nat) (r : RE) : RE
  | look (r : RE) : RE
  | bol (multiline : Bool) : RE
  | eol (multiline : Bool) : RE

/-- Structural size of a pattern (termination measure). -/
def RE.size : RE → Nat
  | .eps => 1
  | .cls _ => 1
  | .cat a b => a.size + b.size + 1
  | .alt a b => a.size + b.size + 1
  | .starG r => r.size + 1
  | .starL r => r.size + 1
  | .group _ r => r.size + 1
  | .look r => r.size + 1
  | .bol _ => 1
  | .eol _ => 1

/-- One engine state: the character just before the current position
(`none` at the start of the subject), the remaining input, and the capture
groups recorded so far (most recent first). -/
abbrev REOut := Option Char × List Char × List (Nat × String)

/-- One level of `reRun`: `self` is the continuation used when a
repetition loops (one unit of fuel down).  Structural recursion on the
pattern. -/
def reRunAux (self : RE → Option Char → List Char → List (Nat × String) → List REOut) :
    RE → Option Char → List Char → List (Nat × String) → List REOut
  | .eps, prev, s, g => [(prev, s, g)]
  | .cls p, _, s, g =>
    match s with
    | [] => []
    | c :: rest => if p c then [(some c, rest, g)] else []
  | .cat a b, prev, s, g =>
    (reRunAux self a prev s g).flatMap (fun out => reRunAux self b out.1 out.2.1 out.2.2)
  | .alt a b, prev, s, g => reRunAux self a prev s g ++ reRunAux self b prev s g
  | .starG r0, prev, s, g =>
    ((reRunAux self r0 prev s g).flatMap (fun out =>
      if out.2.1.length < s.length then self (.starG r0) out.1 out.2.1 out.2.2 else []))
    ++ [(prev, s, g)]
  | .starL r0, prev, s, g =>
    (prev, s, g) ::
    ((reRunAux self r0 prev s g).flatMap (fun out =>
      if out.2.1.length < s.length then self (.starL r0) out.1 out.2.1 out.2.2 else []))
  | .group n r0, prev, s, g =>
    (reRunAux self r0 prev s g).map (fun out =>
      (out.1, out.2.1, (n, String.mk (s.take (s.length - out.2.1.length))) :: out.2.2))
  | .look r0, prev, s, g =>
    match reRunAux self r0 prev s g with
    | [] => []
    | out :: _ => [(prev, s, out.2.2)]
  | .bol m, prev, s, g =>
    match prev with
    | none => [(prev, s, g)]
    | some c => if m && c == '\n' then [(prev, s, g)] else []
  | .eol m, prev, s, g =>
    match s with
    | [] => [(prev, s, g)]
    | c :: rest =>
      if c == '\n' && (m || rest.isEmpty) then [(prev, s, g)] else []

/-- All ways `r` can match at the current position, most preferred first
(CPython backtracking order).  `prev` is the character before the
position (for `^`), `s` the remaining input, `g` the groups captured so
far.  `fuel` bounds the number of repetition iterations; a repetition
iteration that consumes nothing is not repeated (CPython stops repeating
on an empty match; the patterns used here have no nullable repetition
bodies, so that branch is unreachable for them). -/
def reRun : Nat → RE → Option Char → List Char → List (Nat × String) → List REOut
  | 0 => reRunAux (fun _ _ _ _ => [])
  | fuel + 1 => reRunAux (reRun fuel)

/-- A match object: start and end position in the subject, and the
captured groups (most recent first). -/
structure RMatch where
  startPos : Nat
  stopPos : Nat
  groups : List (Nat × String)
deriving DecidableEq, Repr

/-- `m.group(n)` — `none` when the group did not participate. -/
def RMatch.group (m : RMatch) (n : Nat) : Option String := m.groups.lookup n

/-- Fuel amply covering every backtracking path of the patterns used here
(each repetition iteration consumes at least one character). -/
def reFuel (r : RE) (s : List Char) : Nat := (s.length + 2) * (r.size + 2)

/-- `re.search` from position `pos`, where `prev` is the character before
`pos`: leftmost match wins, preferences at that position follow `reRun`. -/
def reSearchFrom (r : RE) : Option Char → (s : List Char) → Nat → Option RMatch
  | prev, [], pos =>
    match reRun (reFuel r []) r prev [] [] with
    | out :: _ => some ⟨pos, pos + (([] : List Char).length - out.2.1.length), out.2.2⟩
    | [] => none
  | prev, c :: rest, pos =>
    match reRun (reFuel r (c :: rest)) r prev (c :: rest) [] with
    | out :: _ => some ⟨pos, pos + ((c :: rest).length - out.2.1.length), out.2.2⟩
    | [] => reSearchFrom r (some c) rest (pos + 1)

/-- Python `re.search(pattern, s)`. -/
def reSearch (r : RE) (s : String) : Option RMatch := reSearchFrom r none s.data 0

/-- Python `re.match(pattern, s)`: anchored at position 0. -/
def reMatchAt0 (r : RE) (s : String) : Option RMatch :=
  match reRun (reFuel r s.data) r none s.data [] with
  | out :: _ => some ⟨0, s.data.length - out.2.1.length, out.2.2⟩
  | [] => none

/-- Python `re.finditer` from a given position: repeated `re.search`,
resuming after each match (one past it when the match is empty).  Each
round consumes at least one character while input remains, so the fuel
`reFindAll` supplies never runs out early. -/
def reFindFrom (r : RE) : Nat → Option Char → List Char → Nat → List RMatch
  | 0, _, _, _ => []
  | fuel + 1, prev, s, pos =>
    match reSearchFrom r prev s pos with
    | none => []
    | some m =>
      match s with
      | [] => [m]
      | _ :: _ =>
        let advance := max 1 (if m.startPos < m.stopPos then m.stopPos - pos
          else m.stopPos - pos + 1)
        let newPrev := match (s.take advance).getLast? with
          | some c => some c
          | none => prev
        m :: reFindFrom r fuel newPrev (s.drop advance) (pos + advance)

/-- Python `list(re.finditer(pattern, s))`. -/
def reFindAll (r : RE) (s : String) : List RMatch :=
  reFindFrom r (s.data.length + 1) none s.data 0

/-- Rebuild the subject, replacing each listed (disjoint, ascending)
match span by `repl`. -/
def spliceFrom (s : List Char) (repl : List Char) : Nat → List RMatch → List Char
  | cur, [] => s.drop cur
  | cur, m :: ms => (s.drop cur).take (m.startPos - cur) ++ repl ++ spliceFrom s repl m.stopPos ms

/-- Python `re.sub(pattern, repl, s)` (replace every match; `repl` has no
backreferences in the source). -/
def reSubAll (r : RE) (repl : String) (s : String) : String :=
  String.mk (spliceFrom s.data repl.data 0 (reFindAll r s))

/-- Python `re.sub(pattern, repl, s, 1)` (replace the first match only). -/
def reSubFirst (r : RE) (repl : String) (s : String) : String :=
  match reSearch r s with
  | none => s
  | some m => String.mk (spliceFrom s.data repl.data 0 [m])

/-! #### Pattern constructors and the source's patterns -/

/-- A single literal character. -/
def lit1 (c : Char) : RE := .cls (fun x => x == c)

/-- A single literal character, `re.IGNORECASE` (ASCII case folding). -/
def litCI1 (c : Char) : RE := .cls (fun x => x.toLower == c.toLower)

/-- A literal string. -/
def litStr (s : String) : RE := s.data.foldr (fun c acc => .cat (lit1 c) acc) .eps

/-- A literal string, `re.IGNORECASE`. -/
def litStrCI (s : String) : RE := s.data.foldr (fun c acc => .cat (litCI1 c) acc) .eps

/-- Greedy `+`. -/
def plusG (r : RE) : RE := .cat r (.starG r)

/-- `\s` for string patterns (ASCII model: space, tab, newline, carriage
return, vertical tab, form feed). -/
def reIsSpace (c : Char) : Bool := pyIsSpace c

/-- `.` under `re.DOTALL`. -/
def dotAll : RE := .cls (fun _ => true)

/-- `.` without `re.DOTALL` (anything but a newline). -/
def dotNoNl : RE := .cls (fun c => c != '\n')

/-- `\d` (ASCII model). -/
def clsDigit : RE := .cls Char.isDigit

/-- `\s`. -/
def clsSpace : RE := .cls reIsSpace

/-- src/paper_parser.py line 141 (`_extract_abstract`), flags
`re.DOTALL | re.IGNORECASE`:
`(?:####\s*Abstract|Abstract)(?:\n+|\s+)(.*?)(?=\n\n\n|\n##|\n#)` -/
def abstractPat : RE :=
  .cat (.alt (.cat (litStr "####") (.cat (.starG clsSpace) (litStrCI "Abstract")))
             (litStrCI "Abstract"))
    (.cat (.alt (plusG (lit1 '\n')) (plusG clsSpace))
      (.cat (.group 1 (.starL dotAll))
        (.look (.alt (litStr "\n\n\n") (.alt (litStr "\n##") (litStr "\n#"))))))

/-- The part of the section-header pattern after the leading `(?:^|\n)`:
`(?:#{1,2}\s+|(?:\d+\.)\s+)([^\n]+)(?:\n|$)`; `#{1,2}` prefers two `#`.
`ml` is whether `re.MULTILINE` is in effect (it changes `$`). -/
def sectionHeadMid (ml : Bool) : RE :=
  .cat (.alt (.cat (.alt (litStr "##") (litStr "#")) (plusG clsSpace))
             (.cat (plusG clsDigit) (.cat (lit1 '.') (plusG clsSpace))))
    (.cat (.group 1 (plusG dotNoNl)) (.alt (lit1 '\n') (.eol ml)))

/-- src/paper_parser.py line 183 (`_extract_sections`), flag
`re.MULTILINE`: `(?:^|\n)(?:#{1,2}\s+|(?:\d+\.)\s+)([^\n]+)(?:\n|$)` -/
def sectionPat : RE := .cat (.alt (.bol true) (lit1 '\n')) (sectionHeadMid true)

/-- src/paper_parser.py line 227 (`_extract_sections`), no flags:
`^(?:#{1,2}\s+|(?:\d+\.)\s+)([^\n]+)(?:\n|$)` -/
def sectionStripPat : RE := .cat (.bol false) (sectionHeadMid false)

/-- src/paper_parser.py line 231 (`_extract_sections`), flag `re.DOTALL`:
`\$\$(.*?)\$\$|\$(.*?)\$` -/
def formulaPat : RE :=
  .alt (.cat (litStr "$$") (.cat (.group 1 (.starL dotAll)) (litStr "$$")))
       (.cat (lit1 '$') (.cat (.group 2 (.starL dotAll)) (lit1 '$')))

/-- src/paper_parser.py line 301 (`_extract_references`), flags
`re.DOTALL | re.IGNORECASE`:
`(?:##\s*References|References)(?:\n+|\s+)(.*?)(?=\n\n\n|\n##|\n#|$)` -/
def referencesPat : RE :=
  .cat (.alt (.cat (litStr "##") (.cat (.starG clsSpace) (litStrCI "References")))
             (litStrCI "References"))
    (.cat (.alt (plusG (lit1 '\n')) (plusG clsSpace))
      (.cat (.group 1 (.starL dotAll))
        (.look (.alt (litStr "\n\n\n")
          (.alt (litStr "\n##") (.alt (litStr "\n#") (.eol false)))))))

/-- src/paper_parser.py line 308 (`_extract_references`), flag
`re.DOTALL`: `(?:\[(\d+)\]|\n(\d+)\.)\s+(.*?)(?=\n\[|\n\d+\.|$)` -/
def refItemPat : RE :=
  .cat (.alt (.cat (lit1 '[') (.cat (.group 1 (plusG clsDigit)) (lit1 ']')))
             (.cat (lit1 '\n') (.cat (.group 2 (plusG clsDigit)) (lit1 '.'))))
    (.cat (plusG clsSpace)
      (.cat (.group 3 (.starL dotAll))
        (.look (.alt (litStr "\n[")
          (.alt (.cat (lit1 '\n') (.cat (plusG clsDigit) (lit1 '.'))) (.eol false))))))

/-- src/paper_parser.py line 328 (`_extract_references`), used through
`re.match` (anchored at 0): `^\[\d+\]|\d+\.` -/
def refLinePat : RE :=
  .alt (.cat (.bol false) (.cat (lit1 '[') (.cat (plusG clsDigit) (lit1 ']'))))
       (.cat (plusG clsDigit) (lit1 '.'))

/-- src/paper_parser.py line 394 (`_extract_metadata`), no flags:
`<br>(.*?)(?=\n\n|\n####)` -/
def affiliationPat : RE :=
  .cat (litStr "<br>") (.cat (.group 1 (.starL dotNoNl))
    (.look (.alt (litStr "\n\n") (litStr "\n####"))))

/-- src/paper_parser.py line 408 (`_extract_metadata`), flag
`re.IGNORECASE`: `doi[:\s]+([^\s]+)` -/
def doiPat : RE :=
  .cat (litStrCI "doi") (.cat (plusG (.cls (fun c => c == ':' || reIsSpace c)))
    (.group 1 (plusG (.cls (fun c => !reIsSpace c)))))

/-! ### `src/paper_parser.py` — the extraction steps

Each `_extract_*` method is a `try` block returning a value, with an
`except Exception` handler returning a default (or the value accumulated
so far).  Each body is embedded as `Except ε α` where an `Except.error`
is an exception reaching the handler, its payload the accumulated value
at that point; the public function applies the handler. -/

/-- Body of `PaperParser._extract_title` (src/paper_parser.py lines
104-119, the `try` block). -/
def extract_title_body (ocr_data : Json) : Except Unit String := do
  let hasPages ← pyInStr "pages" ocr_data
  if hasPages then
    let pages ← pyGetStr ocr_data "pages"
    let n ← pyLen pages
    if n > 0 then
      let first_page ← pyGetIdx0 pages
      let mdJ ← pyDictGet first_page "markdown" (.str "")
      let markdown ← asStr mdJ
      let lines := pySplit markdown "\n"
      match lines.find? (fun line => pyStartsWith line "# ") with
      | some line => return pyStrip (pyDropStr line 2)
      | none =>
        match lines with
        | line0 :: _ => return pyStrip line0
        | [] => return "Title not found"
    else
      return "Title not found"
  else
    return "Title not found"

/-- `PaperParser._extract_title` (lines 93-123). -/
def extract_title (ocr_data : Json) : String :=
  match extract_title_body ocr_data with
  | .ok t => t
  | .error _ => "Title not found"

/-- Body of `PaperParser._extract_abstract` (lines 136-145). -/
def extract_abstract_body (ocr_data : Json) : Except Unit String := do
  let hasPages ← pyInStr "pages" ocr_data
  if hasPages then
    let pages ← pyGetStr ocr_data "pages"
    let n ← pyLen pages
    if n > 0 then
      let first_page ← pyGetIdx0 pages
      let mdJ ← pyDictGet first_page "markdown" (.str "")
      let markdown ← asStr mdJ
      match reSearch abstractPat markdown with
      | some abstract_match =>
        match abstract_match.group 1 with
        | some g => return pyStrip g
        | none => .error ()   -- unreachable: group 1 participates in every match
      | none => return "Abstract not found"
    else
      return "Abstract not found"
  else
    return "Abstract not found"

/-- `PaperParser._extract_abstract` (lines 125-149). -/
def extract_abstract (ocr_data : Json) : String :=
  match extract_abstract_body ocr_data with
  | .ok t => t
  | .error _ => "Abstract not found"

/-- The `coordinates` sub-dict of a section image (lines 202-207). -/
structure Coordinates where
  top_left_x : Json
  top_left_y : Json
  bottom_right_x : Json
  bottom_right_y : Json
deriving DecidableEq, Repr

/-- One entry of a section's `images` list (lines 198-208 / 259-269). -/
structure SecImage where
  page : Json
  id : Json
  base64 : Json
  coordinates : Coordinates
deriving DecidableEq, Repr

/-- One entry of the section list (lines 188-193 / 246-251). -/
structure Section where
  title : String
  text : List String
  images : List SecImage
  formulas : List String
deriving DecidableEq, Repr

/-- Build the image record pushed into a section (lines 198-207): every
remaining field comes from `img.get(...)` with these defaults (`idv` is
the already-fetched `id`). -/
def buildSecImage (page_idx : Json) (idv : Json) (img : Json) : Except Unit SecImage := do
  let base64 ← pyDictGet img "image_base64" (.str "")
  let tlx ← pyDictGet img "top_left_x" (.num 0)
  let tly ← pyDictGet img "top_left_y" (.num 0)
  let brx ← pyDictGet img "bottom_right_x" (.num 0)
  let bry ← pyDictGet img "bottom_right_y" (.num 0)
  return ⟨page_idx, idv, base64, ⟨tlx, tly, brx, bry⟩⟩

/-- The page loop of `_extract_sections` (lines 171-179): build the
concatenated markdown and the `images_by_page` dict. -/
def sectionsPageLoop : List Json → String → List (Json × Json) →
    Except Unit (String × List (Json × Json))
  | [], full, ibp => .ok (full, ibp)
  | page :: rest, full, ibp => do
    let page_idx ← pyDictGet page "index" (.num 0)
    let mdJ ← pyDictGet page "markdown" (.str "")
    let markdown ← asStr mdJ
    let full := full ++ markdown ++ "\n\n"
    let imagesJ ← pyDictGet page "images" (.arr [])
    if pyTruthy imagesJ then
      if pyHashable page_idx then
        sectionsPageLoop rest full (pyDictAssign ibp page_idx imagesJ)
      else .error ()   -- an unhashable dict key raises TypeError
    else
      sectionsPageLoop rest full ibp

/-- Inner image loop of the no-header fallback (lines 197-208). -/
def fallbackImagesInner (page_idx : Json) : List Json → List SecImage →
    Except Unit (List SecImage)
  | [], acc => .ok acc
  | img :: rest, acc => do
    let idv ← pyDictGet img "id" (.str "")
    let si ← buildSecImage page_idx idv img
    fallbackImagesInner page_idx rest (acc ++ [si])

/-- Outer image loop of the no-header fallback (lines 196-208). -/
def fallbackImages : List (Json × Json) → List SecImage → Except Unit (List SecImage)
  | [], acc => .ok acc
  | (page_idx, images) :: rest, acc => do
    let imgs ← pyIter images
    let acc2 ← fallbackImagesInner page_idx imgs acc
    fallbackImages rest acc2

/-- Formula collection for one section (lines 230-237): group 1 `or`
group 2 of each formula match (Python `or`, so an empty group 1 falls
through), kept when truthy, stripped. -/
def collectFormulas (content : String) : List String :=
  (reFindAll formulaPat content).filterMap (fun f_match =>
    let ft := match f_match.group 1 with
      | some s => if s != "" then some s else f_match.group 2
      | none => f_match.group 2
    match ft with
    | some s => if s != "" then some (pyStrip s) else none
    | none => none)

/-- Paragraph splitting for one section (line 243). -/
def collectParagraphs (clean_text : String) : List String :=
  (pySplit clean_text "\n\n").filterMap (fun p =>
    let q := pyStrip p
    if q != "" then some q else none)

/-- Inner image-matching loop of a header section (lines 256-269): an
image is attached when its `id` is truthy and occurs in the section
content (`in` on a string raises unless the id is a string). -/
def sectionImagesInner (content : String) (page_idx : Json) :
    List Json → List SecImage → Except Unit (List SecImage)
  | [], acc => .ok acc
  | img :: rest, acc => do
    let img_id ← pyDictGet img "id" (.str "")
    if pyTruthy img_id then
      match img_id with
      | .str idStr =>
        if strContainsSub content idStr then do
          let si ← buildSecImage page_idx img_id img
          sectionImagesInner content page_idx rest (acc ++ [si])
        else sectionImagesInner content page_idx rest acc
      | _ => .error ()
    else sectionImagesInner content page_idx rest acc

/-- Outer image-matching loop of a header section (lines 255-269). -/
def sectionImages (content : String) : List (Json × Json) → List SecImage →
    Except Unit (List SecImage)
  | [], acc => .ok acc
  | (page_idx, images) :: rest, acc => do
    let imgs ← pyIter images
    let acc2 ← sectionImagesInner content page_idx imgs acc
    sectionImages content rest acc2

/-- The per-header loop of `_extract_sections` (lines 214-271): one
section per header match; the error payload is the list accumulated when
an exception is raised. -/
def sectionMatchLoop (full : String) (ibp : List (Json × Json)) :
    List RMatch → List Section → Except (List Section) (List Section)
  | [], acc => .ok acc
  | m :: rest, acc =>
    match m.group 1 with
    | none => .error acc   -- unreachable: group 1 participates in every match
    | some g1 =>
      let section_title := pyStrip g1
      let section_start := m.startPos
      let section_end := match rest with
        | m2 :: _ => m2.startPos
        | [] => full.length
      let content0 := pyStrip (pySlice full section_start section_end)
      let section_content := reSubFirst sectionStripPat "" content0
      let formulas := collectFormulas section_content
      let clean_text := reSubAll formulaPat " FORMULA " section_content
      let paragraphs := collectParagraphs clean_text
      match sectionImages section_content ibp [] with
      | .ok imgs =>
        sectionMatchLoop full ibp rest (acc ++ [⟨section_title, paragraphs, imgs, formulas⟩])
      | .error _ => .error acc

/-- Body of `PaperParser._extract_sections` (lines 163-273); the error
payload is the `sections` list accumulated when the exception is raised. -/
def extract_sections_body (ocr_data : Json) : Except (List Section) (List Section) := do
  let hasPages ← liftE [] (pyInStr "pages" ocr_data)
  if !hasPages then
    return []
  else
    let pages ← liftE [] (pyGetStr ocr_data "pages")
    let pageList ← liftE [] (pyIter pages)
    let res ← liftE [] (sectionsPageLoop pageList "" [])
    let full_markdown := res.1
    let images_by_page := res.2
    let section_matches := reFindAll sectionPat full_markdown
    if section_matches.isEmpty then
      let imgs ← liftE [] (fallbackImages images_by_page [])
      return [⟨"Document", [pyStrip full_markdown], imgs, []⟩]
    else
      sectionMatchLoop full_markdown images_by_page section_matches []

/-- `PaperParser._extract_sections` (lines 151-277). -/
def extract_sections (ocr_data : Json) : List Section :=
  match extract_sections_body ocr_data with
  | .ok s => s
  | .error s => s

/-- The page loop of `_extract_references` (lines 297-298). -/
def referencesPageLoop : List Json → String → Except Unit String
  | [], full => .ok full
  | page :: rest, full => do
    let mdJ ← pyDictGet page "markdown" (.str "")
    let markdown ← asStr mdJ
    referencesPageLoop rest (full ++ markdown ++ "\n\n")

/-- The numbered-reference loop (lines 311-315): group 1 `or` group 2 is
the number, group 3 the text; a truthy text appends
`f"[\x7bref_num\x7d] \x7bref_text\x7d"`. -/
def refMatchesLoop : List RMatch → List String → Except (List String) (List String)
  | [], acc => .ok acc
  | m :: rest, acc =>
    let ref_num := match m.group 1 with
      | some s => if s != "" then some s else m.group 2
      | none => m.group 2
    match m.group 3 with
    | none => .error acc   -- unreachable: group 3 participates in every match
    | some t3 =>
      let ref_text := pyStrip t3
      if ref_text != "" then
        let numStr := match ref_num with
          | some s => s
          | none => "None"   -- an f-string renders Python None this way
        refMatchesLoop rest (acc ++ ["[" ++ numStr ++ "] " ++ ref_text])
      else refMatchesLoop rest acc

/-- The line-by-line fallback of `_extract_references` (lines 319-338). -/
def refLineLoop : List String → String → List String → List String
  | [], current_ref, refs =>
    if current_ref != "" then refs ++ [pyStrip current_ref] else refs
  | line0 :: rest, current_ref, refs =>
    let line := pyStrip line0
    if line == "" then refLineLoop rest current_ref refs
    else if (reMatchAt0 refLinePat line).isSome then
      if current_ref != "" then refLineLoop rest line (refs ++ [pyStrip current_ref])
      else refLineLoop rest line refs
    else
      if current_ref != "" then refLineLoop rest (current_ref ++ " " ++ line) refs
      else refLineLoop rest current_ref refs

/-- Body of `PaperParser._extract_references` (lines 291-340); error
payload = the references accumulated at the exception. -/
def extract_references_body (ocr_data : Json) : Except (List String) (List String) := do
  let hasPages ← liftE [] (pyInStr "pages" ocr_data)
  if !hasPages then
    return []
  else
    let pages ← liftE [] (pyGetStr ocr_data "pages")
    let pageList ← liftE [] (pyIter pages)
    let full_markdown ← liftE [] (referencesPageLoop pageList "")
    match reSearch referencesPat full_markdown with
    | none => return []
    | some ref_match =>
      match ref_match.group 1 with
      | none => .error []   -- unreachable: `.strip()` on `None` would raise
      | some g1 =>
        let ref_content := pyStrip g1
        let ref_matches := reFindAll refItemPat ("\n" ++ ref_content)
        let references ← refMatchesLoop ref_matches []
        if references.isEmpty then
          let lines := pySplit ref_content "\n"
          return refLineLoop (lines.drop 1) "" []
        else
          return references

/-- `PaperParser._extract_references` (lines 279-344). -/
def extract_references (ocr_data : Json) : List String :=
  match extract_references_body ocr_data with
  | .ok r => r
  | .error r => r

/-- The metadata dict literal (lines 356-363). -/
def metadata0 : List (String × Json) :=
  [("authors", .arr []), ("affiliations", .arr []), ("keywords", .arr []),
   ("doi", .str ""), ("publication_date", .str ""), ("journal", .str "")]

/-- `metadata[k].append(a)` where the entry holds a list (true for every
use: `authors` and `affiliations` start as `[]` and are only appended
to). -/
def pushListField (m : List (String × Json)) (k : String) (a : Json) :
    List (String × Json) :=
  match m.lookup k with
  | some (.arr xs) => setField m k (.arr (xs ++ [a]))
  | _ => m

/-- The author scan of one line (lines 381-391). -/
def authorsFromLine (m : List (String × Json)) (line : String) : List (String × Json) :=
  if strContainsSub line "<br>" then
    (pySplit line "<br>").foldl (fun m author =>
      let a := pyStrip author
      if a != "" && !(pyStartsWith a "#") then pushListField m "authors" (.str a) else m) m
  else if strContainsSub line "," && !(pyStartsWith line "http") && !(pyStartsWith line "www") then
    (pySplit line ",").foldl (fun m author =>
      let a := pyStrip author
      if a != "" && !(pyStartsWith a "#") then pushListField m "authors" (.str a) else m) m
  else m

/-- Body of `PaperParser._extract_metadata` (lines 365-412); error payload
= the metadata dict at the exception. -/
def extract_metadata_body (ocr_data : Json) :
    Except (List (String × Json)) (List (String × Json)) := do
  let md := metadata0
  let hasPages ← liftE md (pyInStr "pages" ocr_data)
  if !hasPages then
    return md
  else
    let pages ← liftE md (pyGetStr ocr_data "pages")
    let n ← liftE md (pyLen pages)
    if n == 0 then
      return md
    else
      let first_page ← liftE md (pyGetIdx0 pages)
      let mdJ ← liftE md (pyDictGet first_page "markdown" (.str ""))
      let title := extract_title ocr_data
      let md ←
        if title != "Title not found" then do
          let inMd ← liftE md (pyInStr title mdJ)
          if inMd then do
            let markdown ← liftE md (asStr mdJ)   -- `.find` needs a string
            let idx := (strFind markdown title).getD 0
            let after_title := pyDropStr markdown (idx + title.length)
            match strFind (pyLower after_title) "abstract" with
            | some abstract_idx =>
              let author_section := pyStrip (pyTakeStr after_title abstract_idx)
              let lines := pySplit author_section "\n"
              pure (lines.foldl authorsFromLine md)
            | none => pure md
          else pure md
        else pure md
      let markdown ← liftE md (asStr mdJ)   -- `re.search` needs a string
      let md ←
        match reSearch affiliationPat markdown with
        | some affiliation_match =>
          match affiliation_match.group 1 with
          | some g => pure (pushListField md "affiliations" (.str (pyStrip g)))
          | none => Except.error md   -- unreachable: `.strip()` on `None`
        | none => pure md
      let md :=
        match strFind (pyLower markdown) "keywords" with
        | some keywords_idx =>
          let keywords_text := (pySplit1 (pyDropStr markdown keywords_idx) "\n").headD ""
          if strContainsSub keywords_text ":" then
            let keywords := match pySplit1 keywords_text ":" with
              | [_, rest] => rest
              | _ => ""   -- unreachable: ':' occurs in keywords_text
            setField md "keywords" (.arr ((pySplit keywords ",").map (fun k => .str (pyStrip k))))
          else md
        | none => md
      let md :=
        match reSearch doiPat markdown with
        | some doi_match =>
          match doi_match.group 1 with
          | some g => setField md "doi" (.str g)
          | none => setField md "doi" .null   -- unreachable
        | none => md
      return md

/-- `PaperParser._extract_metadata` (lines 346-416). -/
def extract_metadata (ocr_data : Json) : List (String × Json) :=
  match extract_metadata_body ocr_data with
  | .ok m => m
  | .error m => m

/-! ### The Python `json` module

Modelled from the spec: `parse_paper` calls the standard library's
`json.loads` (src/paper_parser.py line 38), whose code is not part of
this repository.  `json_loads` below implements its documented behaviour
on the integer-number fragment this model covers (floats, `NaN` and
`Infinity` are outside the model): JSON values with insignificant
whitespace, strings with the standard escapes (`\uXXXX` restricted to
non-surrogate code points), objects as insertion-ordered dicts where a
repeated key keeps its position and the last value, and an error when the
document does not parse or leaves trailing data.  `json_dumps` implements
`json.dumps(v, ensure_ascii=False)` (the canonical serialization used to
state the string/dict round-trip claim): separators `", "` and `": "`,
strings escaping the quote, the backslash and control characters. -/

/-- Value of a hexadecimal digit. -/
def hexVal (c : Char) : Option Nat :=
  if '0' ≤ c && c ≤ '9' then some (c.toNat - 48)
  else if 'a' ≤ c && c ≤ 'f' then some (c.toNat - 87)
  else if 'A' ≤ c && c ≤ 'F' then some (c.toNat - 55)
  else none

/-- The single-character string escapes of JSON. -/
def escDecode : Char → Option Char
  | '"' => some '"'
  | '\\' => some '\\'
  | '/' => some '/'
  | 'b' => some '\x08'
  | 'f' => some '\x0c'
  | 'n' => some '\n'
  | 'r' => some '\r'
  | 't' => some '\t'
  | _ => none

/-- Parse the body of a JSON string after the opening quote, returning
its contents and the input after the closing quote.  Raw control
characters are rejected (Python's default `strict=True`); `\uXXXX` is
accepted for non-surrogate code points. -/
def parseStrBody : List Char → Option (List Char × List Char)
  | [] => none
  | c :: cs =>
    if c = '"' then some ([], cs)
    else if c = '\\' then
      match cs with
      | [] => none
      | e :: cs2 =>
        if e = 'u' then
          match cs2 with
          | h1 :: h2 :: h3 :: h4 :: cs3 =>
            match hexVal h1, hexVal h2, hexVal h3, hexVal h4 with
            | some a, some b, some c3, some d =>
              let code := ((a * 16 + b) * 16 + c3) * 16 + d
              if 0xD800 ≤ code && code < 0xE000 then none
              else
                match parseStrBody cs3 with
                | some (content, rest) => some (Char.ofNat code :: content, rest)
                | none => none
            | _, _, _, _ => none
          | _ => none
        else
          match escDecode e with
          | some ec =>
            match parseStrBody cs2 with
            | some (content, rest) => some (ec :: content, rest)
            | none => none
          | none => none
    else if c.toNat < 0x20 then none
    else
      match parseStrBody cs with
      | some (content, rest) => some (c :: content, rest)
      | none => none

/-- Digits to a natural number. -/
def digitsToNat (ds : List Char) : Nat :=
  ds.foldl (fun a c => a * 10 + (c.toNat - 48)) 0

/-- Parse a maximal nonempty run of decimal digits. -/
def parseNatNum (s : List Char) : Option (Nat × List Char) :=
  let ds := s.takeWhile Char.isDigit
  if ds.isEmpty then none else some (digitsToNat ds, s.drop ds.length)

/-- JSON insignificant whitespace. -/
def jsonWs (c : Char) : Bool :=
  decide (c = ' ' ∨ c = '\t' ∨ c = '\n' ∨ c = '\r')

/-- Skip insignificant whitespace. -/
def skipWs (s : List Char) : List Char := s.dropWhile jsonWs

mutual

/-- Parse one JSON value (leading whitespace allowed), returning it and
the remaining input.  `fuel` decreases on every call; the top level
supplies enough for any input (see `json_loads`). -/
def parseValue : Nat → List Char → Option (Json × List Char)
  | 0, _ => none
  | fuel + 1, s =>
    match skipWs s with
    | [] => none
    | c :: cs =>
      if c = 'n' then
        match cs with
        | 'u' :: 'l' :: 'l' :: rest => some (.null, rest)
        | _ => none
      else if c = 't' then
        match cs with
        | 'r' :: 'u' :: 'e' :: rest => some (.bool true, rest)
        | _ => none
      else if c = 'f' then
        match cs with
        | 'a' :: 'l' :: 's' :: 'e' :: rest => some (.bool false, rest)
        | _ => none
      else if c = '"' then
        match parseStrBody cs with
        | some (content, rest) => some (.str (String.mk content), rest)
        | none => none
      else if c = '[' then
        match skipWs cs with
        | ']' :: rest => some (.arr [], rest)
        | s2 => parseArrItems fuel s2 []
      else if c = '\x7b' then
        match skipWs cs with
        | '\x7d' :: rest => some (.obj [], rest)
        | s2 => parseObjItems fuel s2 []
      else if c = '-' then
        match parseNatNum cs with
        | some (n, rest) => some (.num (-(n : Int)), rest)
        | none => none
      else if c.isDigit then
        match parseNatNum (c :: cs) with
        | some (n, rest) => some (.num (n : Int), rest)
        | none => none
      else none

/-- Parse the items of a nonempty array, given input positioned at the
first item; `acc` holds the items already parsed. -/
def parseArrItems : Nat → List Char → List Json → Option (Json × List Char)
  | 0, _, _ => none
  | fuel + 1, s, acc =>
    match parseValue fuel s with
    | none => none
    | some (v, rest) =>
      match skipWs rest with
      | ',' :: r2 => parseArrItems fuel r2 (acc ++ [v])
      | ']' :: r2 => some (.arr (acc ++ [v]), r2)
      | _ => none

/-- Parse the members of a nonempty object, given input positioned at the
first key; `acc` holds the dict built so far (`setField` = Python dict
assignment, so a repeated key keeps its position and takes the last
value, as `json.loads` does). -/
def parseObjItems : Nat → List Char → List (String × Json) → Option (Json × List Char)
  | 0, _, _ => none
  | fuel + 1, s, acc =>
    match s with
    | '"' :: cs =>
      match parseStrBody cs with
      | none => none
      | some (key, r1) =>
        match skipWs r1 with
        | ':' :: r2 =>
          match parseValue fuel r2 with
          | none => none
          | some (v, r3) =>
            let acc2 := setField acc (String.mk key) v
            match skipWs r3 with
            | ',' :: r4 =>
              match skipWs r4 with
              | s2 => parseObjItems fuel s2 acc2
            | '\x7d' :: r4 => some (.obj acc2, r4)
            | _ => none
        | _ => none
    | _ => none

end

/-- `json.loads` (modelled from the spec, see the section comment):
parse one value and require only whitespace to remain. -/
def json_loads (s : String) : Except Unit Json :=
  match parseValue (2 * s.length + 4) s.data with
  | some (v, rest) => if (skipWs rest).isEmpty then .ok v else .error ()
  | none => .error ()

/-- Lower-case hexadecimal digit. -/
def hexDigitChar (n : Nat) : Char :=
  if n < 10 then Char.ofNat (48 + n) else Char.ofNat (87 + n)

/-- Serialize one character of a JSON string
(`json.dumps(..., ensure_ascii=False)`): escape the quote, the backslash
and control characters. -/
def escapeChar (c : Char) : List Char :=
  if c = '"' then ['\\', '"']
  else if c = '\\' then ['\\', '\\']
  else if c = '\n' then ['\\', 'n']
  else if c = '\t' then ['\\', 't']
  else if c = '\r' then ['\\', 'r']
  else if c = '\x08' then ['\\', 'b']
  else if c = '\x0c' then ['\\', 'f']
  else if c.toNat < 0x20 then
    ['\\', 'u', '0', '0', hexDigitChar (c.toNat / 16), hexDigitChar (c.toNat % 16)]
  else [c]

/-- Serialize a JSON string body. -/
def escString (s : List Char) : List Char := s.flatMap escapeChar

/-- Decimal digits of a natural number, with structural fuel (any
`fuel > n` gives the digits; `n / 10 < n` bounds the recursion depth). -/
def natDigitsAux : Nat → Nat → List Char
  | 0, _ => []
  | fuel + 1, n =>
    if n < 10 then [Char.ofNat (48 + n)]
    else natDigitsAux fuel (n / 10) ++ [Char.ofNat (48 + n % 10)]

/-- Decimal digits of a natural number. -/
def natDigits (n : Nat) : List Char := natDigitsAux (n + 1) n

/-- Decimal rendering of an integer. -/
def intDumps (n : Int) : List Char :=
  if n < 0 then '-' :: natDigits n.natAbs else natDigits n.natAbs

mutual

/-- `json.dumps(v, ensure_ascii=False)` (modelled from the spec), as a
character list. -/
def dumpsChars : Json → List Char
  | .null => 'n' :: 'u' :: 'l' :: 'l' :: []
  | .bool true => 't' :: 'r' :: 'u' :: 'e' :: []
  | .bool false => 'f' :: 'a' :: 'l' :: 's' :: 'e' :: []
  | .num n => intDumps n
  | .str s => '"' :: (escString s.data ++ ['"'])
  | .arr xs => '[' :: dumpsArrItems xs
  | .obj kvs => '\x7b' :: dumpsObjItems kvs

/-- Array items with the default `", "` separator, then `]`. -/
def dumpsArrItems : List Json → List Char
  | [] => [']']
  | [x] => dumpsChars x ++ [']']
  | x :: xs => dumpsChars x ++ ',' :: ' ' :: dumpsArrItems xs

/-- Object members with the default `", "` and `": "` separators. -/
def dumpsObjItems : List (String × Json) → List Char
  | [] => ['\x7d']
  | [(k, v)] => ('"' :: (escString k.data ++ '"' :: ':' :: ' ' :: dumpsChars v)) ++ ['\x7d']
  | (k, v) :: kvs =>
    ('"' :: (escString k.data ++ '"' :: ':' :: ' ' :: dumpsChars v)) ++ ',' :: ' ' :: dumpsObjItems kvs

end

/-- `json.dumps(v, ensure_ascii=False)` (modelled from the spec). -/
def json_dumps (v : Json) : String := String.mk (dumpsChars v)

mutual

/-- Well-formedness of a `Json` value as the image of a Python object:
every object has distinct keys (Python dicts cannot repeat a key). -/
def Json.WF : Json → Bool
  | .arr xs => Json.WFList xs
  | .obj kvs => Json.keysNodup kvs && Json.WFFields kvs
  | _ => true

/-- All elements well-formed. -/
def Json.WFList : List Json → Bool
  | [] => true
  | x :: xs => x.WF && Json.WFList xs

/-- All field values well-formed. -/
def Json.WFFields : List (String × Json) → Bool
  | [] => true
  | (_, v) :: kvs => v.WF && Json.WFFields kvs

/-- No key occurs twice. -/
def Json.keysNodup : List (String × Json) → Bool
  | [] => true
  | (k, _) :: kvs => !(kvs.any (fun kv => kv.1 == k)) && Json.keysNodup kvs

end

/-! ### `PaperParser.parse_paper` -/

/-- One value of the parsed paper structure (the dict literal at
src/paper_parser.py lines 41-47). -/
inductive PaperValue where
  | vstr (s : String) : PaperValue
  | vsections (l : List Section) : PaperValue
  | vrefs (l : List String) : PaperValue
  | vmeta (m : List (String × Json)) : PaperValue
deriving DecidableEq, Repr

/-- The argument `parse_paper` receives: either an already parsed Python
value or a JSON string (`isinstance(ocr_data, str)`). -/
inductive OcrInput where
  | data (d : Json) : OcrInput
  | text (s : String) : OcrInput

/-- `PaperParser.parse_paper` with `save_output=False`
(src/paper_parser.py lines 23-65): a string argument goes through
`json.loads` (an invalid document raises — the `except` block at line 63
re-raises); the result is the five-key dict literal of lines 41-47. -/
def parse_paper (input : OcrInput) : Except Unit (List (String × PaperValue)) := do
  let ocr_data ←
    match input with
    | .data d => pure d
    | .text s =>
      match json_loads s with
      | .ok d => pure d
      | .error _ => Except.error ()
  return [("title", .vstr (extract_title ocr_data)),
          ("abstract", .vstr (extract_abstract ocr_data)),
          ("sections", .vsections (extract_sections ocr_data)),
          ("references", .vrefs (extract_references ocr_data)),
          ("metadata", .vmeta (extract_metadata ocr_data))]

/-- Whether a pattern contains no capture group (such patterns leave the
group list unchanged). -/
def RE.groupFree : RE → Bool
  | .eps => true
  | .cls _ => true
  | .cat a b => a.groupFree && b.groupFree
  | .alt a b => a.groupFree && b.groupFree
  | .starG r => r.groupFree
  | .starL r => r.groupFree
  | .group _ _ => false
  | .look r => r.groupFree
  | .bol _ => true
  | .eol _ => true

mutual

/-- Fuel needed by `parseValue` to parse the serialization of a value
(one unit per `parseValue`/`parseArrItems`/`parseObjItems` call). -/
def Jweight : Json → Nat
  | .arr xs => JweightList xs + 1
  | .obj kvs => JweightFields kvs + 1
  | _ => 1

/-- Fuel needed by `parseArrItems` for these items. -/
def JweightList : List Json → Nat
  | [] => 1
  | x :: xs => JweightList xs + (Jweight x + 1)

/-- Fuel needed by `parseObjItems` for these members. -/
def JweightFields : List (String × Json) → Nat
  | [] => 1
  | (_, v) :: kvs => JweightFields kvs + (Jweight v + 1)

end

/-- The invariant of the metadata dict: exactly the six literal keys in
order, and `publication_date` and `journal` hold the empty string. -/
def mdInv (m : List (String × Json)) : Prop :=
  m.map Prod.fst = ["authors", "affiliations", "keywords", "doi", "publication_date", "journal"]
  ∧ m.lookup "publication_date" = some (.str "")
  ∧ m.lookup "journal" = some (.str "")

/-! ## Theorems for the claims -/

/-- A cache miss as `get_ocr_result` observes it: `_check_cache` returned
`None`, or a value Python truthiness rejects (`if cache_result:`). -/
def cacheMiss {U S R : Type} (env : OcrEnv U S R) : Prop :=
  ∀ j, env.cacheData = some j → pyTruthy j = false

/-- Helper: under a cache miss `get_ocr_result` runs its miss tail. -/
theorem get_ocr_result_of_miss {U S R : Type} (env : OcrEnv U S R)
    (hmiss : cacheMiss env) : get_ocr_result env = get_ocr_result_miss env := by
  cases h : env.cacheData with
  | none => simp [get_ocr_result, h]
  | some j => simp [get_ocr_result, h, hmiss j h]

/-- Helper: each external step is attempted at most once by the miss tail. -/
theorem miss_trace_le {U S R : Type} (env : OcrEnv U S R) :
    (get_ocr_result_miss env).2.uploadCalls ≤ 1 ∧
    (get_ocr_result_miss env).2.signedUrlCalls ≤ 1 ∧
    (get_ocr_result_miss env).2.ocrCalls ≤ 1 := by
  unfold get_ocr_result_miss
  cases hu : env.uploadResult with
  | none => simp
  | some pdf =>
    cases hs : env.signedUrlResult pdf with
    | none => simp [hs]
    | some url =>
      cases ho : env.ocrResult url with
      | none => simp [hs, ho]
      | some r => simp [hs, ho]

/-- C1 (counterexample): two files with identical byte contents but
different modification times receive different cache paths — the cache
key appends `st_size` and `st_mtime` to the content hash, so it is not a
function of the contents alone, and a cache entry made for a file's
content is not found again when the same content reappears with another
mtime. -/
theorem C1_counterexample :
    (⟨[], "100.0"⟩ : FileView).content = (⟨[], "200.0"⟩ : FileView).content ∧
    get_cache_path (fun _ => "d41d8cd98f00b204e9800998ecf8427e") "cache" ⟨[], "100.0"⟩ ≠
      get_cache_path (fun _ => "d41d8cd98f00b204e9800998ecf8427e") "cache" ⟨[], "200.0"⟩ := by
  exact ⟨rfl, by decide⟩

/-- C1 (amended): the cache path is keyed by the file's byte contents
together with its size and modification time: for every hash function,
two calls to `_get_cache_path` on files with identical byte contents
(hence identical size) and identical modification times produce the same
cache path. -/
theorem C1_cache_path_key (md5hex : List Nat → String) (dir : String) (f g : FileView)
    (hc : f.content = g.content) (hm : f.mtimeRepr = g.mtimeRepr) :
    get_cache_path md5hex dir f = get_cache_path md5hex dir g := by
  simp [get_cache_path, hc, hm]

/-- C1 witness. -/
theorem C1_cache_path_key_witness :
    get_cache_path (fun _ => "h") "cache" ⟨[7], "1.0"⟩ =
      get_cache_path (fun _ => "h") "cache" ⟨[7], "1.0"⟩ :=
  C1_cache_path_key (fun _ => "h") "cache" ⟨[7], "1.0"⟩ ⟨[7], "1.0"⟩ rfl rfl

/-- The environment refuting C2: the cache file exists and loads as JSON
(the empty dict), every external call fails. -/
def envC2 : OcrEnv Unit Unit Unit :=
  ⟨some (Json.obj []), none, fun _ => none, fun _ => none⟩

/-- C2 (counterexample): a cache file that exists and loads as JSON is
not necessarily used — the source tests the loaded value with Python
truthiness, so a falsy cached value (here the empty dict) falls through
to the miss path and the upload step is performed. -/
theorem C2_counterexample :
    envC2.cacheData = some (Json.obj []) ∧
    (get_ocr_result envC2).1 ≠ some (.cached (Json.obj [])) ∧
    (get_ocr_result envC2).2.uploadCalls = 1 := by
  exact ⟨rfl, by decide, rfl⟩

/-- C2 (amended): when a cache file exists for the path, loads as JSON
and the loaded value is truthy, `get_ocr_result` returns the cached data
and attempts none of the upload, signed-URL or OCR steps and writes
nothing to the cache. -/
theorem C2_cache_hit {U S R : Type} (env : OcrEnv U S R) (j : Json)
    (hcache : env.cacheData = some j) (htruthy : pyTruthy j = true) :
    get_ocr_result env = (some (.cached j), ⟨0, 0, 0, []⟩) := by
  simp [get_ocr_result, hcache, htruthy]

/-- C2 witness. -/
theorem C2_cache_hit_witness :
    get_ocr_result (⟨some (Json.num 1), none, fun _ => none, fun _ => none⟩ :
        OcrEnv Unit Unit Unit)
      = (some (.cached (Json.num 1)), ⟨0, 0, 0, []⟩) :=
  C2_cache_hit _ (Json.num 1) rfl rfl

/-- C3: on a cache miss with all three external steps succeeding,
`get_ocr_result` uploads the file once, obtains the signed URL once,
issues exactly one OCR request, saves exactly the service's response to
the cache, and returns that response unmodified. -/
theorem C3_thin_wrapper {U S R : Type} (env : OcrEnv U S R) (pdf : U) (url : S) (resp : R)
    (hmiss : cacheMiss env)
    (hup : env.uploadResult = some pdf)
    (hurl : env.signedUrlResult pdf = some url)
    (hocr : env.ocrResult url = some resp) :
    get_ocr_result env = (some (.fresh resp), ⟨1, 1, 1, [resp]⟩) := by
  rw [get_ocr_result_of_miss env hmiss]
  simp [get_ocr_result_miss, hup, hurl, hocr]

/-- C3 witness. -/
theorem C3_thin_wrapper_witness :
    get_ocr_result (⟨none, some (), fun _ => some (), fun _ => some ()⟩ :
        OcrEnv Unit Unit Unit)
      = (some (.fresh ()), ⟨1, 1, 1, [()]⟩) :=
  C3_thin_wrapper _ () () () (fun j h => nomatch h) rfl rfl rfl

/-- C5: no retry anywhere — on a cache miss, a failed upload returns
`None` with the signed-URL and OCR steps never attempted (and nothing
cached); a failed signed-URL retrieval returns `None` with the OCR step
never attempted (and nothing cached); and no step is ever attempted more
than once in a call. -/
theorem C5_no_retry {U S R : Type} (env : OcrEnv U S R) (hmiss : cacheMiss env) :
    (env.uploadResult = none → get_ocr_result env = (none, ⟨1, 0, 0, []⟩)) ∧
    (∀ pdf, env.uploadResult = some pdf → env.signedUrlResult pdf = none →
      get_ocr_result env = (none, ⟨1, 1, 0, []⟩)) ∧
    (get_ocr_result env).2.uploadCalls ≤ 1 ∧
    (get_ocr_result env).2.signedUrlCalls ≤ 1 ∧
    (get_ocr_result env).2.ocrCalls ≤ 1 := by
  rw [get_ocr_result_of_miss env hmiss]
  refine ⟨?_, ?_, miss_trace_le env⟩
  · intro h; simp [get_ocr_result_miss, h]
  · intro pdf h1 h2; simp [get_ocr_result_miss, h1, h2]

/-- C5 witness (upload fails: nothing further is attempted). -/
theorem C5_no_retry_witness :
    get_ocr_result (⟨none, none, fun _ => none, fun _ => none⟩ : OcrEnv Unit Unit Unit)
      = (none, ⟨1, 0, 0, []⟩) :=
  (C5_no_retry (⟨none, none, fun _ => none, fun _ => none⟩ : OcrEnv Unit Unit Unit)
    (fun j h => nomatch h)).1 rfl

/-- C6: the raw OCR response is cached exactly when the OCR request
succeeds — a `None` result writes nothing to the cache, a cache hit
writes nothing, and a fresh response `r` writes exactly `r`. -/
theorem C6_cache_write_iff {U S R : Type} (env : OcrEnv U S R) :
    ((get_ocr_result env).1 = none → (get_ocr_result env).2.cacheWrites = []) ∧
    (∀ j, (get_ocr_result env).1 = some (.cached j) →
      (get_ocr_result env).2.cacheWrites = []) ∧
    (∀ r, (get_ocr_result env).1 = some (.fresh r) →
      (get_ocr_result env).2.cacheWrites = [r]) := by
  have hmiss : ((get_ocr_result_miss env).1 = none →
      (get_ocr_result_miss env).2.cacheWrites = []) ∧
      (∀ j, (get_ocr_result_miss env).1 = some (.cached j) →
        (get_ocr_result_miss env).2.cacheWrites = []) ∧
      (∀ r, (get_ocr_result_miss env).1 = some (.fresh r) →
        (get_ocr_result_miss env).2.cacheWrites = [r]) := by
    unfold get_ocr_result_miss
    cases hu : env.uploadResult with
    | none => simp
    | some pdf =>
      cases hs : env.signedUrlResult pdf with
      | none => simp [hs]
      | some url =>
        cases ho : env.ocrResult url with
        | none => simp [hs, ho]
        | some r =>
          refine ⟨by simp [hs, ho], by simp [hs, ho], ?_⟩
          intro r2 h
          simp only [hs, ho, Prod.fst] at h
          cases OcrOutcome.fresh.inj (Option.some.inj h)
          simp [hs, ho]
  cases h : env.cacheData with
  | none => simpa [get_ocr_result, h] using hmiss
  | some j =>
    by_cases ht : pyTruthy j
    · simp [get_ocr_result, h, ht]
    · simpa [get_ocr_result, h, ht] using hmiss

/-- C6 witness (a successful OCR run writes exactly its response). -/
theorem C6_cache_write_iff_witness :
    (get_ocr_result (⟨none, some (), fun _ => some (), fun _ => some ()⟩ :
        OcrEnv Unit Unit Unit)).2.cacheWrites = [()] :=
  (C6_cache_write_iff (⟨none, some (), fun _ => some (), fun _ => some ()⟩ :
      OcrEnv Unit Unit Unit)).2.2 () rfl

/-- Helper: `parse_paper` on an already parsed value is the five-entry
dict literal. -/
theorem parse_paper_data (d : Json) :
    parse_paper (.data d) =
      .ok [("title", .vstr (extract_title d)),
           ("abstract", .vstr (extract_abstract d)),
           ("sections", .vsections (extract_sections d)),
           ("references", .vrefs (extract_references d)),
           ("metadata", .vmeta (extract_metadata d))] := rfl

/-- Helper: a string argument whose `json.loads` succeeds is handled
exactly like the parsed value. -/
theorem parse_paper_text_ok (s : String) (d : Json) (h : json_loads s = .ok d) :
    parse_paper (.text s) = parse_paper (.data d) := by
  simp only [parse_paper, h]

/-- Helper: a string argument that does not parse raises. -/
theorem parse_paper_text_err (s : String) (h : json_loads s = .error ()) :
    parse_paper (.text s) = .error () := by
  simp only [parse_paper, h]
  rfl

/-- C4: whenever `parse_paper` returns (rather than raising), the result
is a dict with exactly the five keys `title`, `abstract`, `sections`,
`references`, `metadata`, in that order. -/
theorem C4_five_keys (input : OcrInput) (ps : List (String × PaperValue))
    (h : parse_paper input = .ok ps) :
    ps.map Prod.fst = ["title", "abstract", "sections", "references", "metadata"] := by
  cases input with
  | data d =>
    rw [parse_paper_data] at h
    obtain rfl := Except.ok.inj h
    rfl
  | text s =>
    cases hl : json_loads s with
    | ok d =>
      rw [parse_paper_text_ok s d hl, parse_paper_data] at h
      obtain rfl := Except.ok.inj h
      rfl
    | error e =>
      cases e
      rw [parse_paper_text_err s hl] at h
      simp at h

/-- C4 witness. -/
theorem C4_five_keys_witness :
    ([("title", PaperValue.vstr "Title not found"),
      ("abstract", PaperValue.vstr "Abstract not found"),
      ("sections", PaperValue.vsections []),
      ("references", PaperValue.vrefs []),
      ("metadata", PaperValue.vmeta metadata0)] :
        List (String × PaperValue)).map Prod.fst
      = ["title", "abstract", "sections", "references", "metadata"] :=
  C4_five_keys (.data (Json.num 0)) _ rfl

/-- Helper: `bind` on a successful `Except` is application. -/
theorem except_bind_ok {eps alp bet : Type} (a : alp) (f : alp → Except eps bet) :
    (Except.ok a : Except eps alp) >>= f = f a := rfl

/-- Helper: `pure` for `Except` is `Except.ok`. -/
theorem except_pure_eq {eps alp : Type} (a : alp) :
    (pure a : Except eps alp) = Except.ok a := rfl

/-- Helper: the per-header loop appends exactly one section per match
when it completes without an exception. -/
theorem sectionMatchLoop_length (full : String) (ibp : List (Json × Json)) :
    ∀ (ms : List RMatch) (acc out : List Section),
      sectionMatchLoop full ibp ms acc = .ok out → out.length = acc.length + ms.length
  | [], acc, out => by
      intro h
      simp only [sectionMatchLoop] at h
      obtain rfl := Except.ok.inj h
      simp
  | m :: rest, acc, out => by
      intro h
      simp only [sectionMatchLoop] at h
      split at h
      · exact absurd h (by simp)
      · split at h
        · have := sectionMatchLoop_length full ibp rest _ out h
          simp only [List.length_append, List.length_cons, List.length_nil] at this ⊢
          omega
        · exact absurd h (by simp)

/-- Helper: reduction of `extract_sections_body` to the no-header
fallback. -/
theorem extract_sections_body_fallback (d pages : Json) (pageList : List Json)
    (full : String) (ibp : List (Json × Json)) (imgs : List SecImage)
    (hpages : pyInStr "pages" d = .ok true)
    (hget : pyGetStr d "pages" = .ok pages)
    (hiter : pyIter pages = .ok pageList)
    (hloop : sectionsPageLoop pageList "" [] = .ok (full, ibp))
    (hempty : reFindAll sectionPat full = [])
    (himgs : fallbackImages ibp [] = .ok imgs) :
    extract_sections_body d = .ok [⟨"Document", [pyStrip full], imgs, []⟩] := by
  unfold extract_sections_body
  simp [liftE, hpages, hget, hiter, hloop, himgs, hempty, except_bind_ok, pure, Except.pure]

/-- Helper: reduction of `extract_sections_body` to the per-header loop. -/
theorem extract_sections_body_loop (d pages : Json) (pageList : List Json)
    (full : String) (ibp : List (Json × Json))
    (hpages : pyInStr "pages" d = .ok true)
    (hget : pyGetStr d "pages" = .ok pages)
    (hiter : pyIter pages = .ok pageList)
    (hloop : sectionsPageLoop pageList "" [] = .ok (full, ibp))
    (hne : (reFindAll sectionPat full).isEmpty = false) :
    extract_sections_body d = sectionMatchLoop full ibp (reFindAll sectionPat full) [] := by
  unfold extract_sections_body
  simp [liftE, hpages, hget, hiter, hloop, hne, except_bind_ok, pure, Except.pure]
  intro h
  rw [h] at hne
  simp at hne

/-- Helper: when the fallback image collection raises, the body raises
with the still-empty section list. -/
theorem extract_sections_body_fallback_err (d pages : Json) (pageList : List Json)
    (full : String) (ibp : List (Json × Json))
    (hpages : pyInStr "pages" d = .ok true)
    (hget : pyGetStr d "pages" = .ok pages)
    (hiter : pyIter pages = .ok pageList)
    (hloop : sectionsPageLoop pageList "" [] = .ok (full, ibp))
    (hempty : reFindAll sectionPat full = [])
    (himgs : fallbackImages ibp [] = .error ()) :
    extract_sections_body d = .error [] := by
  unfold extract_sections_body
  simp [liftE, hpages, hget, hiter, hloop, himgs, hempty, except_bind_ok, pure, Except.pure]
  rfl

/-- C9 (counterexample): one page whose markdown is `plain` — the
section pattern matches nowhere, the fallback `Document` section is
produced, but its text is the *stripped* concatenation `plain`, not the
whole concatenated markdown `plain\n\n` (each page contributes its
markdown plus `\n\n`). -/
theorem C9_counterexample :
    sectionsPageLoop [Json.obj [("markdown", Json.str "plain")]] "" [] =
      .ok ("plain\n\n", []) ∧
    reFindAll sectionPat "plain\n\n" = [] ∧
    extract_sections (Json.obj [("pages", Json.arr [Json.obj [("markdown", Json.str "plain")]])])
      = [⟨"Document", ["plain"], [], []⟩] ∧
    ("plain" : String) ≠ "plain\n\n" := by
  refine ⟨rfl, by decide, by decide, by decide⟩

/-- C9 (amended): for every `ocr_data` containing the key `pages`, when
`_extract_sections` completes without an internal error the result is
non-empty: if the section-header pattern matches nowhere in the
concatenated markdown, the result is exactly one fallback section titled
`Document` whose text is the whole concatenated markdown stripped of
surrounding whitespace; otherwise there is exactly one section per
header match. -/
theorem C9_sections_shape (d pages : Json) (pageList : List Json)
    (full : String) (ibp : List (Json × Json)) (secs : List Section)
    (hpages : pyInStr "pages" d = .ok true)
    (hget : pyGetStr d "pages" = .ok pages)
    (hiter : pyIter pages = .ok pageList)
    (hloop : sectionsPageLoop pageList "" [] = .ok (full, ibp))
    (hok : extract_sections_body d = .ok secs) :
    (reFindAll sectionPat full = [] →
      ∃ imgs, secs = [⟨"Document", [pyStrip full], imgs, []⟩]) ∧
    (reFindAll sectionPat full ≠ [] →
      secs.length = (reFindAll sectionPat full).length) ∧
    secs ≠ [] := by
  by_cases hempty : reFindAll sectionPat full = []
  · cases hfb : fallbackImages ibp [] with
    | ok imgs =>
      rw [extract_sections_body_fallback d pages pageList full ibp imgs
        hpages hget hiter hloop hempty hfb] at hok
      obtain rfl := Except.ok.inj hok
      refine ⟨fun _ => ⟨imgs, rfl⟩, fun hne => absurd hempty hne, by simp⟩
    | error e =>
      cases e
      rw [extract_sections_body_fallback_err d pages pageList full ibp
        hpages hget hiter hloop hempty hfb] at hok
      exact absurd hok (by simp)
  · have hne : (reFindAll sectionPat full).isEmpty = false := by
      cases hm : reFindAll sectionPat full with
      | nil => exact absurd hm hempty
      | cons a l => simp
    rw [extract_sections_body_loop d pages pageList full ibp
      hpages hget hiter hloop hne] at hok
    have hlen := sectionMatchLoop_length full ibp _ [] secs hok
    simp only [List.length_nil, Nat.zero_add] at hlen
    refine ⟨fun h => absurd h hempty, fun _ => hlen, ?_⟩
    intro hnil
    subst hnil
    simp only [List.length_nil] at hlen
    have : reFindAll sectionPat full = [] := List.length_eq_zero.mp hlen.symm
    exact hempty this

/-- C9 witness: a one-page document with one header. -/
theorem C9_sections_shape_witness :
    (reFindAll sectionPat "## A\nx\n\n" = [] →
      ∃ imgs, ([⟨"A", ["x"], [], []⟩] : List Section)
        = [⟨"Document", [pyStrip "## A\nx\n\n"], imgs, []⟩]) ∧
    (reFindAll sectionPat "## A\nx\n\n" ≠ [] →
      ([⟨"A", ["x"], [], []⟩] : List Section).length
        = (reFindAll sectionPat "## A\nx\n\n").length) ∧
    ([⟨"A", ["x"], [], []⟩] : List Section) ≠ [] :=
  C9_sections_shape (Json.obj [("pages", Json.arr [Json.obj [("markdown", Json.str "## A\nx")]])])
    (Json.arr [Json.obj [("markdown", Json.str "## A\nx")]])
    [Json.obj [("markdown", Json.str "## A\nx")]]
    "## A\nx\n\n" [] [⟨"A", ["x"], [], []⟩]
    rfl rfl rfl rfl (by decide)

/-- Helper: a group-free pattern leaves the capture list unchanged in
every outcome (one `reRunAux` level, given the same for the repetition
continuation `self`). -/
theorem reRunAux_groupFree
    (self : RE → Option Char → List Char → List (Nat × String) → List REOut)
    (hself : ∀ r prev s g out, r.groupFree = true → out ∈ self r prev s g → out.2.2 = g) :
    ∀ (r : RE), r.groupFree = true →
      ∀ prev s g out, out ∈ reRunAux self r prev s g → out.2.2 = g
  | .eps, hgf, prev, s, g, out => by
      intro hmem
      simp only [reRunAux, List.mem_singleton] at hmem
      rw [hmem]
  | .cls p, hgf, prev, s, g, out => by
      intro hmem
      simp only [reRunAux] at hmem
      cases s with
      | nil => simp at hmem
      | cons c rest =>
        dsimp only at hmem
        by_cases hc : p c
        · rw [if_pos hc] at hmem
          simp only [List.mem_singleton] at hmem
          rw [hmem]
        · rw [if_neg hc] at hmem
          simp at hmem
  | .cat a b, hgf, prev, s, g, out => by
      intro hmem
      simp only [RE.groupFree, Bool.and_eq_true] at hgf
      simp only [reRunAux, List.mem_flatMap] at hmem
      obtain ⟨mid, hmid, hout⟩ := hmem
      have h1 := reRunAux_groupFree self hself a hgf.1 prev s g mid hmid
      have h2 := reRunAux_groupFree self hself b hgf.2 mid.1 mid.2.1 mid.2.2 out hout
      rw [h2, h1]
  | .alt a b, hgf, prev, s, g, out => by
      intro hmem
      simp only [RE.groupFree, Bool.and_eq_true] at hgf
      simp only [reRunAux, List.mem_append] at hmem
      rcases hmem with hmem | hmem
      · exact reRunAux_groupFree self hself a hgf.1 prev s g out hmem
      · exact reRunAux_groupFree self hself b hgf.2 prev s g out hmem
  | .starG r0, hgf, prev, s, g, out => by
      intro hmem
      simp only [RE.groupFree] at hgf
      simp only [reRunAux, List.mem_append, List.mem_flatMap] at hmem
      rcases hmem with ⟨mid, hmid, hout⟩ | hstop
      · have h1 := reRunAux_groupFree self hself r0 hgf prev s g mid hmid
        by_cases hc : mid.2.1.length < s.length
        · rw [if_pos hc] at hout
          have h2 := hself (.starG r0) mid.1 mid.2.1 mid.2.2 out
            (by simp [RE.groupFree, hgf]) hout
          rw [h2, h1]
        · rw [if_neg hc] at hout
          simp at hout
      · simp only [List.mem_singleton] at hstop
        rw [hstop]
  | .starL r0, hgf, prev, s, g, out => by
      intro hmem
      simp only [RE.groupFree] at hgf
      simp only [reRunAux, List.mem_cons, List.mem_flatMap] at hmem
      rcases hmem with hstop | ⟨mid, hmid, hout⟩
      · rw [hstop]
      · have h1 := reRunAux_groupFree self hself r0 hgf prev s g mid hmid
        by_cases hc : mid.2.1.length < s.length
        · rw [if_pos hc] at hout
          have h2 := hself (.starL r0) mid.1 mid.2.1 mid.2.2 out
            (by simp [RE.groupFree, hgf]) hout
          rw [h2, h1]
        · rw [if_neg hc] at hout
          simp at hout
  | .group n r0, hgf, prev, s, g, out => by
      simp [RE.groupFree] at hgf
  | .look r0, hgf, prev, s, g, out => by
      intro hmem
      simp only [RE.groupFree] at hgf
      simp only [reRunAux] at hmem
      cases hrun : reRunAux self r0 prev s g with
      | nil => rw [hrun] at hmem; simp at hmem
      | cons o os =>
        rw [hrun] at hmem
        simp only [List.mem_singleton] at hmem
        have ho : o ∈ reRunAux self r0 prev s g := by rw [hrun]; exact List.mem_cons_self o os
        have := reRunAux_groupFree self hself r0 hgf prev s g o ho
        rw [hmem]
        exact this
  | .bol m, hgf, prev, s, g, out => by
      intro hmem
      simp only [reRunAux] at hmem
      cases prev with
      | none => simp only [List.mem_singleton] at hmem; rw [hmem]
      | some c =>
        dsimp only at hmem
        by_cases hc : m && c == '\n'
        · rw [if_pos hc] at hmem
          simp only [List.mem_singleton] at hmem
          rw [hmem]
        · rw [if_neg hc] at hmem
          simp at hmem
  | .eol m, hgf, prev, s, g, out => by
      intro hmem
      simp only [reRunAux] at hmem
      cases s with
      | nil => simp only [List.mem_singleton] at hmem; rw [hmem]
      | cons c rest =>
        dsimp only at hmem
        by_cases hc : c == '\n' && (m || rest.isEmpty)
        · rw [if_pos hc] at hmem
          simp only [List.mem_singleton] at hmem
          rw [hmem]
        · rw [if_neg hc] at hmem
          simp at hmem

/-- Helper: a group-free pattern leaves the capture list unchanged in
every outcome. -/
theorem reRun_groupFree : ∀ (fuel : Nat) (r : RE), r.groupFree = true →
    ∀ prev s g out, out ∈ reRun fuel r prev s g → out.2.2 = g
  | 0, r, hgf, prev, s, g, out => fun hmem =>
      reRunAux_groupFree _ (fun _ _ _ _ _ _ ho => absurd ho (by simp)) r hgf prev s g out hmem
  | fuel + 1, r, hgf, prev, s, g, out => fun hmem =>
      reRunAux_groupFree _
        (fun r2 p2 s2 g2 o2 hgf2 ho2 => reRun_groupFree fuel r2 hgf2 p2 s2 g2 o2 ho2)
        r hgf prev s g out hmem

/-- Helper: every outcome of the affiliation pattern binds group 1 (the
pattern is `<br>` · group 1 · lookahead, with group-free flanks). -/
theorem reRunAux_affiliation_group1
    (self : RE → Option Char → List Char → List (Nat × String) → List REOut)
    (hself : ∀ r prev s g out, r.groupFree = true → out ∈ self r prev s g → out.2.2 = g)
    (prev : Option Char) (s : List Char) (g : List (Nat × String)) (out : REOut)
    (hmem : out ∈ reRunAux self affiliationPat prev s g) :
    (out.2.2.lookup 1).isSome = true := by
  have hgfY : (RE.alt (litStr "\n\n") (litStr "\n####")).groupFree = true := by decide
  have e1 : reRunAux self affiliationPat prev s g =
      (reRunAux self (litStr "<br>") prev s g).flatMap
        (fun o => reRunAux self (.cat (.group 1 (.starL dotNoNl))
          (.look (.alt (litStr "\n\n") (litStr "\n####")))) o.1 o.2.1 o.2.2) := rfl
  rw [e1, List.mem_flatMap] at hmem
  obtain ⟨mid1, hmid1, hout1⟩ := hmem
  have e2 : reRunAux self (.cat (.group 1 (.starL dotNoNl))
      (.look (.alt (litStr "\n\n") (litStr "\n####")))) mid1.1 mid1.2.1 mid1.2.2 =
      (reRunAux self (.group 1 (.starL dotNoNl)) mid1.1 mid1.2.1 mid1.2.2).flatMap
        (fun o => reRunAux self (.look (.alt (litStr "\n\n") (litStr "\n####")))
          o.1 o.2.1 o.2.2) := rfl
  rw [e2, List.mem_flatMap] at hout1
  obtain ⟨mid2, hmid2, hout2⟩ := hout1
  have e3 : reRunAux self (.group 1 (.starL dotNoNl)) mid1.1 mid1.2.1 mid1.2.2 =
      (reRunAux self (.starL dotNoNl) mid1.1 mid1.2.1 mid1.2.2).map
        (fun o => (o.1, o.2.1,
          (1, String.mk (mid1.2.1.take (mid1.2.1.length - o.2.1.length))) :: o.2.2)) := rfl
  rw [e3, List.mem_map] at hmid2
  obtain ⟨inner, hinner, hmid2eq⟩ := hmid2
  have e4 : reRunAux self (.look (.alt (litStr "\n\n") (litStr "\n####")))
      mid2.1 mid2.2.1 mid2.2.2 =
      (match reRunAux self (.alt (litStr "\n\n") (litStr "\n####")) mid2.1 mid2.2.1 mid2.2.2 with
       | [] => []
       | o :: _ => [(mid2.1, mid2.2.1, o.2.2)]) := rfl
  rw [e4] at hout2
  cases hrun : reRunAux self (.alt (litStr "\n\n") (litStr "\n####")) mid2.1 mid2.2.1 mid2.2.2 with
  | nil => rw [hrun] at hout2; simp at hout2
  | cons o os =>
    rw [hrun] at hout2
    simp only [List.mem_singleton] at hout2
    have ho : o ∈ reRunAux self (.alt (litStr "\n\n") (litStr "\n####"))
        mid2.1 mid2.2.1 mid2.2.2 := by
      rw [hrun]; exact List.mem_cons_self o os
    have hkeep := reRunAux_groupFree self hself _ hgfY mid2.1 mid2.2.1 mid2.2.2 o ho
    rw [hout2]
    simp only [hkeep]
    rw [← hmid2eq]
    simp [List.lookup]

/-- Helper: same statement through `reRun` at any fuel. -/
theorem reRun_affiliation_group1 :
    ∀ (fuel : Nat) (prev : Option Char) (s : List Char) (g : List (Nat × String)) (out : REOut),
      out ∈ reRun fuel affiliationPat prev s g → (out.2.2.lookup 1).isSome = true
  | 0, prev, s, g, out => fun hmem =>
      reRunAux_affiliation_group1 _ (fun _ _ _ _ _ _ ho => absurd ho (by simp))
        prev s g out hmem
  | fuel + 1, prev, s, g, out => fun hmem =>
      reRunAux_affiliation_group1 _
        (fun r2 p2 s2 g2 o2 hgf2 ho2 => reRun_groupFree fuel r2 hgf2 p2 s2 g2 o2 ho2)
        prev s g out hmem

/-- Helper: transfer a property of the head outcome's captures through
the position scan of `reSearchFrom`. -/
theorem reSearchFrom_groups_prop (r : RE) (P : List (Nat × String) → Prop)
    (hP : ∀ (prev : Option Char) (s : List Char) (out : REOut) (outs : List REOut),
      reRun (reFuel r s) r prev s [] = out :: outs → P out.2.2) :
    ∀ (s : List Char) (prev : Option Char) (pos : Nat) (m : RMatch),
      reSearchFrom r prev s pos = some m → P m.groups := by
  intro s
  induction s with
  | nil =>
    intro prev pos m h
    simp only [reSearchFrom] at h
    cases hrun : reRun (reFuel r []) r prev [] [] with
    | cons out outs =>
      rw [hrun] at h
      obtain rfl := Option.some.inj h
      exact hP prev [] out outs hrun
    | nil => rw [hrun] at h; simp at h
  | cons c rest ih =>
    intro prev pos m h
    simp only [reSearchFrom] at h
    cases hrun : reRun (reFuel r (c :: rest)) r prev (c :: rest) [] with
    | cons out outs =>
      rw [hrun] at h
      obtain rfl := Option.some.inj h
      exact hP prev (c :: rest) out outs hrun
    | nil =>
      rw [hrun] at h
      exact ih (some c) (pos + 1) m h

/-- Helper: a successful affiliation search always binds group 1. -/
theorem affiliation_group1_isSome (mdStr : String) (m : RMatch)
    (h : reSearch affiliationPat mdStr = some m) : (m.group 1).isSome = true := by
  unfold reSearch at h
  exact reSearchFrom_groups_prop affiliationPat (fun g => (g.lookup 1).isSome = true)
    (fun prev s out outs hrun =>
      reRun_affiliation_group1 (reFuel affiliationPat s) prev s [] out
        (by rw [hrun]; exact List.mem_cons_self out outs))
    mdStr.data none 0 m h

/-- Helper: assigning an existing key leaves the key list unchanged. -/
theorem setField_map_fst (k : String) (v : Json) :
    ∀ m : List (String × Json), k ∈ m.map Prod.fst →
      (setField m k v).map Prod.fst = m.map Prod.fst
  | [], h => absurd h (by simp)
  | (k0, v0) :: rest, h => by
      unfold setField
      by_cases hk : k0 == k
      · rw [if_pos hk]
        simp only [List.map_cons]
      · rw [if_neg hk]
        simp only [List.map_cons, List.cons.injEq, true_and]
        apply setField_map_fst k v rest
        simp only [List.map_cons, List.mem_cons] at h
        rcases h with h | h
        · exact absurd (beq_iff_eq.mpr h.symm) hk
        · exact h

/-- Helper: assigning key `k` does not change the value of another key. -/
theorem setField_lookup_ne (k kq : String) (v : Json) (hne : kq ≠ k) :
    ∀ m : List (String × Json), (setField m k v).lookup kq = m.lookup kq
  | [] => by
      simp only [setField, List.lookup]
      have hx : (kq == k) = false := by simpa using hne
      simp only [hx]
  | (k0, v0) :: rest => by
      unfold setField
      by_cases hk : k0 == k
      · rw [if_pos hk]
        have hx : (kq == k0) = false := by
          simp only [beq_eq_false_iff_ne, ne_eq]
          exact fun hh => hne (hh.trans (beq_iff_eq.mp hk))
        simp only [List.lookup, hx]
      · rw [if_neg hk]
        simp only [List.lookup]
        cases hq : kq == k0
        · simp only [hq]
          exact setField_lookup_ne k kq v hne rest
        · simp only [hq]

/-- Helper: `mdInv` survives assignment to any of the four keys the
source writes. -/
theorem mdInv_setField (m : List (String × Json)) (k : String) (v : Json)
    (hinv : mdInv m)
    (hk : k = "authors" ∨ k = "affiliations" ∨ k = "keywords" ∨ k = "doi") :
    mdInv (setField m k v) := by
  obtain ⟨h1, h2, h3⟩ := hinv
  have hmem : k ∈ m.map Prod.fst := by
    rw [h1]; rcases hk with rfl | rfl | rfl | rfl <;> simp
  refine ⟨by rw [setField_map_fst k v m hmem, h1], ?_, ?_⟩
  · rw [setField_lookup_ne k "publication_date" v
      (by rcases hk with rfl | rfl | rfl | rfl <;> decide) m, h2]
  · rw [setField_lookup_ne k "journal" v
      (by rcases hk with rfl | rfl | rfl | rfl <;> decide) m, h3]

/-- Helper: `mdInv` survives an append to `authors` or `affiliations`. -/
theorem mdInv_push (m : List (String × Json)) (k : String) (a : Json)
    (hinv : mdInv m) (hk : k = "authors" ∨ k = "affiliations") :
    mdInv (pushListField m k a) := by
  unfold pushListField
  split
  · exact mdInv_setField m k _ hinv (by rcases hk with rfl | rfl <;> simp)
  · exact hinv

/-- Helper: `mdInv` survives the author fold over split fragments. -/
theorem mdInv_authorFold (l : List String) :
    ∀ m : List (String × Json), mdInv m →
      mdInv (l.foldl (fun m author =>
        let a := pyStrip author
        if a != "" && !(pyStartsWith a "#") then pushListField m "authors" (.str a) else m) m) := by
  induction l with
  | nil => intro m h; exact h
  | cons x xs ih =>
    intro m h
    simp only [List.foldl_cons]
    apply ih
    dsimp only
    split
    · exact mdInv_push m "authors" _ h (Or.inl rfl)
    · exact h

/-- Helper: `mdInv` survives the per-line author scan. -/
theorem mdInv_authorsFromLine (m : List (String × Json)) (line : String)
    (hinv : mdInv m) : mdInv (authorsFromLine m line) := by
  unfold authorsFromLine
  split
  · exact mdInv_authorFold _ m hinv
  · split
    · exact mdInv_authorFold _ m hinv
    · exact hinv

/-- Helper: `mdInv` survives the whole author-section fold. -/
theorem mdInv_linesFold (lines : List String) :
    ∀ m : List (String × Json), mdInv m → mdInv (lines.foldl authorsFromLine m) := by
  induction lines with
  | nil => intro m h; exact h
  | cons x xs ih =>
    intro m h
    simp only [List.foldl_cons]
    exact ih _ (mdInv_authorsFromLine m x h)

/-- Helper: the metadata dict literal satisfies the invariant. -/
theorem mdInv_metadata0 : mdInv metadata0 := ⟨rfl, rfl, rfl⟩

/-- Helper: the keywords step preserves the metadata invariant. -/
theorem mdInv_kwStep (markdown : String) (md : List (String × Json)) (h : mdInv md) :
    mdInv (match strFind (pyLower markdown) "keywords" with
      | some keywords_idx =>
        let keywords_text := (pySplit1 (pyDropStr markdown keywords_idx) "\n").headD ""
        if strContainsSub keywords_text ":" then
          let keywords := match pySplit1 keywords_text ":" with
            | [_, rest] => rest
            | _ => ""
          setField md "keywords" (.arr ((pySplit keywords ",").map (fun k => .str (pyStrip k))))
        else md
      | none => md) := by
  split
  · dsimp only
    split
    · exact mdInv_setField md "keywords" _ h (by simp)
    · exact h
  · exact h

/-- Helper: the DOI step preserves the metadata invariant. -/
theorem mdInv_doiStep (markdown : String) (md : List (String × Json)) (h : mdInv md) :
    mdInv (match reSearch doiPat markdown with
      | some doi_match =>
        match doi_match.group 1 with
        | some g => setField md "doi" (.str g)
        | none => setField md "doi" .null
      | none => md) := by
  split
  · split
    · exact mdInv_setField md "doi" _ h (by simp)
    · exact mdInv_setField md "doi" _ h (by simp)
  · exact h

/-- Helper: the affiliation/keywords/DOI tail of `_extract_metadata`
never raises (every affiliation match binds group 1) and preserves the
invariant. -/
theorem metadata_tail_spec (markdown : String) (md1 : List (String × Json))
    (hinv : mdInv md1) :
    (match (do
      let md ←
        match reSearch affiliationPat markdown with
        | some affiliation_match =>
          match affiliation_match.group 1 with
          | some g => pure (pushListField md1 "affiliations" (.str (pyStrip g)))
          | none => Except.error md1
        | none => pure md1
      let md :=
        match strFind (pyLower markdown) "keywords" with
        | some keywords_idx =>
          let keywords_text := (pySplit1 (pyDropStr markdown keywords_idx) "\n").headD ""
          if strContainsSub keywords_text ":" then
            let keywords := match pySplit1 keywords_text ":" with
              | [_, rest] => rest
              | _ => ""
            setField md "keywords" (.arr ((pySplit keywords ",").map (fun k => .str (pyStrip k))))
          else md
        | none => md
      let md :=
        match reSearch doiPat markdown with
        | some doi_match =>
          match doi_match.group 1 with
          | some g => setField md "doi" (.str g)
          | none => setField md "doi" .null
        | none => md
      return md : Except (List (String × Json)) (List (String × Json))) with
     | .ok m => mdInv m
     | .error m => m = metadata0) := by
  cases haff : reSearch affiliationPat markdown with
  | none =>
    simp only [haff, except_bind_ok]
    exact mdInv_doiStep markdown _ (mdInv_kwStep markdown md1 hinv)
  | some am =>
    cases hg : am.group 1 with
    | none =>
      have hs := affiliation_group1_isSome markdown am haff
      rw [RMatch.group] at hg
      rw [RMatch.group, hg] at hs
      simp at hs
    | some g =>
      simp only [haff, hg, except_bind_ok]
      exact mdInv_doiStep markdown _
        (mdInv_kwStep markdown _ (mdInv_push md1 "affiliations" _ hinv (Or.inr rfl)))

/-- Helper: `_extract_metadata`'s body either returns a dict satisfying
the invariant, or raises carrying exactly the untouched default dict
(every path that has already added an author can no longer raise). -/
theorem metadata_body_spec (d : Json) :
    (match extract_metadata_body d with
     | .ok m => mdInv m
     | .error m => m = metadata0) := by
  unfold extract_metadata_body
  cases h1 : pyInStr "pages" d with
  | error e => cases e; rfl
  | ok hasPages =>
    simp only [liftE, except_pure_eq, except_bind_ok, Bool.not_true, Bool.not_false,
                Bool.false_eq_true, eq_self_iff_true, if_false, if_true]
    cases hasPages with
    | false => exact mdInv_metadata0
    | true =>
      cases h2 : pyGetStr d "pages" with
      | error e => cases e; rfl
      | ok pages =>
        simp only [liftE, except_pure_eq, except_bind_ok, Bool.not_true, Bool.not_false,
                Bool.false_eq_true, eq_self_iff_true, if_false, if_true]
        cases h3 : pyLen pages with
        | error e => cases e; rfl
        | ok n =>
          simp only [liftE, except_pure_eq, except_bind_ok, Bool.not_true, Bool.not_false,
                Bool.false_eq_true, eq_self_iff_true, if_false, if_true]
          cases hn : n == 0 with
          | true => exact mdInv_metadata0
          | false =>
            cases h4 : pyGetIdx0 pages with
            | error e => cases e; rfl
            | ok first_page =>
              simp only [liftE, except_pure_eq, except_bind_ok, Bool.not_true, Bool.not_false,
                Bool.false_eq_true, eq_self_iff_true, if_false, if_true]
              cases h5 : pyDictGet first_page "markdown" (.str "") with
              | error e => cases e; rfl
              | ok mdJ =>
                simp only [liftE, except_pure_eq, except_bind_ok, Bool.not_true, Bool.not_false,
                Bool.false_eq_true, eq_self_iff_true, if_false, if_true]
                cases hct : extract_title d != "Title not found" with
                | false =>
                  cases h8 : asStr mdJ with
                  | error e => cases e; rfl
                  | ok markdown =>
                    simp only [liftE, except_pure_eq, except_bind_ok, Bool.not_true, Bool.not_false,
                Bool.false_eq_true, eq_self_iff_true, if_false, if_true]
                    cases haff : reSearch affiliationPat markdown with
                    | none =>
                      simp only [liftE, except_pure_eq, except_bind_ok]
                      exact mdInv_doiStep markdown _
                        (mdInv_kwStep markdown _ mdInv_metadata0)
                    | some am =>
                      cases hg : am.group 1 with
                      | none =>
                        have hs := affiliation_group1_isSome markdown am haff
                        rw [hg] at hs
                        simp at hs
                      | some g =>
                        simp only [hg, liftE, except_pure_eq, except_bind_ok]
                        exact mdInv_doiStep markdown _ (mdInv_kwStep markdown _
                          (mdInv_push metadata0 "affiliations" _ mdInv_metadata0 (Or.inr rfl)))
                | true =>
                  cases h6 : pyInStr (extract_title d) mdJ with
                  | error e => cases e; rfl
                  | ok inMd =>
                    simp only [liftE, except_pure_eq, except_bind_ok, Bool.not_true, Bool.not_false,
                Bool.false_eq_true, eq_self_iff_true, if_false, if_true]
                    cases inMd with
                    | false =>
                      cases h8 : asStr mdJ with
                      | error e => cases e; rfl
                      | ok markdown =>
                        simp only [liftE, except_pure_eq, except_bind_ok, Bool.not_true, Bool.not_false,
                Bool.false_eq_true, eq_self_iff_true, if_false, if_true]
                        cases haff : reSearch affiliationPat markdown with
                        | none =>
                          simp only [liftE, except_pure_eq, except_bind_ok]
                          exact mdInv_doiStep markdown _
                            (mdInv_kwStep markdown _ mdInv_metadata0)
                        | some am =>
                          cases hg : am.group 1 with
                          | none =>
                            have hs := affiliation_group1_isSome markdown am haff
                            rw [hg] at hs
                            simp at hs
                          | some g =>
                            simp only [hg, liftE, except_pure_eq, except_bind_ok]
                            exact mdInv_doiStep markdown _ (mdInv_kwStep markdown _
                              (mdInv_push metadata0 "affiliations" _ mdInv_metadata0 (Or.inr rfl)))
                    | true =>
                      cases h7 : asStr mdJ with
                      | error e => cases e; rfl
                      | ok markdown =>
                        simp only [liftE, except_pure_eq, except_bind_ok, Bool.not_true, Bool.not_false,
                Bool.false_eq_true, eq_self_iff_true, if_false, if_true]
                        cases hai : strFind (pyLower (pyDropStr markdown
                            ((strFind markdown (extract_title d)).getD 0
                              + (extract_title d).length))) "abstract" with
                        | none =>
                          cases haff : reSearch affiliationPat markdown with
                          | none =>
                            simp only [liftE, except_pure_eq, except_bind_ok]
                            exact mdInv_doiStep markdown _
                              (mdInv_kwStep markdown _ mdInv_metadata0)
                          | some am =>
                            cases hg : am.group 1 with
                            | none =>
                              have hs := affiliation_group1_isSome markdown am haff
                              rw [hg] at hs
                              simp at hs
                            | some g =>
                              simp only [hg, liftE, except_pure_eq, except_bind_ok]
                              exact mdInv_doiStep markdown _ (mdInv_kwStep markdown _
                                (mdInv_push metadata0 "affiliations" _ mdInv_metadata0 (Or.inr rfl)))
                        | some abstract_idx =>
                          cases haff : reSearch affiliationPat markdown with
                          | none =>
                            simp only [liftE, except_pure_eq, except_bind_ok]
                            exact mdInv_doiStep markdown _ (mdInv_kwStep markdown _
                              (mdInv_linesFold _ _ mdInv_metadata0))
                          | some am =>
                            cases hg : am.group 1 with
                            | none =>
                              have hs := affiliation_group1_isSome markdown am haff
                              rw [hg] at hs
                              simp at hs
                            | some g =>
                              simp only [hg, liftE, except_pure_eq, except_bind_ok]
                              exact mdInv_doiStep markdown _ (mdInv_kwStep markdown _
                                (mdInv_push _ "affiliations" _
                                  (mdInv_linesFold _ _ mdInv_metadata0) (Or.inr rfl)))

/-- C7: every extraction step is total and best-effort — whenever a
body raises (reaches its `except Exception` handler), the extractor
returns the default: `"Title not found"`, `"Abstract not found"`, the
section list accumulated so far, the reference list accumulated so far,
or the (always still default) metadata dictionary.  No exception
propagates: the extractors' types are exception-free functions of the
bodies' outcomes. -/
theorem C7_extractors_total (d : Json) :
    (∀ e : Unit, extract_title_body d = .error e → extract_title d = "Title not found") ∧
    (∀ e : Unit, extract_abstract_body d = .error e → extract_abstract d = "Abstract not found") ∧
    (∀ acc, extract_sections_body d = .error acc → extract_sections d = acc) ∧
    (∀ acc, extract_references_body d = .error acc → extract_references d = acc) ∧
    (∀ m, extract_metadata_body d = .error m →
      extract_metadata d = m ∧ m = metadata0) := by
  refine ⟨?_, ?_, ?_, ?_, ?_⟩
  · intro e h; unfold extract_title; rw [h]
  · intro e h; unfold extract_abstract; rw [h]
  · intro acc h; unfold extract_sections; rw [h]
  · intro acc h; unfold extract_references; rw [h]
  · intro m h
    have hs := metadata_body_spec d
    rw [h] at hs
    exact ⟨by unfold extract_metadata; rw [h], hs⟩

/-- C7 witness: on the integer `0` every body raises (`"pages" in 0` is
a `TypeError`) and every extractor returns its default. -/
theorem C7_extractors_total_witness :
    extract_title (Json.num 0) = "Title not found" ∧
    extract_abstract (Json.num 0) = "Abstract not found" ∧
    extract_sections (Json.num 0) = [] ∧
    extract_references (Json.num 0) = [] ∧
    (extract_metadata (Json.num 0) = metadata0 ∧ metadata0 = metadata0) :=
  ⟨(C7_extractors_total (Json.num 0)).1 () rfl,
   (C7_extractors_total (Json.num 0)).2.1 () rfl,
   (C7_extractors_total (Json.num 0)).2.2.1 [] rfl,
   (C7_extractors_total (Json.num 0)).2.2.2.1 [] rfl,
   (C7_extractors_total (Json.num 0)).2.2.2.2 metadata0 rfl⟩

/-- C8: on every input, `_extract_metadata` returns a dict with exactly
the keys `authors`, `affiliations`, `keywords`, `doi`,
`publication_date`, `journal` (in that order), and the values of
`publication_date` and `journal` are always the empty string — no code
path assigns them. -/
theorem C8_metadata_keys (d : Json) :
    (extract_metadata d).map Prod.fst =
      ["authors", "affiliations", "keywords", "doi", "publication_date", "journal"] ∧
    (extract_metadata d).lookup "publication_date" = some (.str "") ∧
    (extract_metadata d).lookup "journal" = some (.str "") := by
  have h := metadata_body_spec d
  unfold extract_metadata
  cases hb : extract_metadata_body d with
  | ok m => rw [hb] at h; exact h
  | error m => rw [hb] at h; rw [h]; exact mdInv_metadata0

/-- Helper: `Char.toNat` inverts `Char.ofNat` below the surrogate range. -/
theorem char_toNat_ofNat (n : Nat) (h : n < 0xD800) : (Char.ofNat n).toNat = n := by
  unfold Char.ofNat
  rw [dif_pos (Or.inl (by omega : n < 0xd800))]
  simp [Char.toNat, Char.ofNatAux, UInt32.ofNat', UInt32.toNat, BitVec.toNat_ofNatLt]

/-- Helper: `hexVal` inverts `hexDigitChar`. -/
theorem hexVal_hexDigitChar : ∀ n : Nat, n < 16 → hexVal (hexDigitChar n) = some n := by
  decide

/-- Helper: the string parser inverts the string serializer. -/
theorem parseStrBody_escString : ∀ (s rest : List Char),
    parseStrBody (escString s ++ '"' :: rest) = some (s, rest)
  | [], rest => by
      rw [show escString [] ++ '"' :: rest = '"' :: rest from rfl, parseStrBody.eq_def]
      simp
  | c :: cs, rest => by
      have ih := parseStrBody_escString cs rest
      simp only [escString, List.flatMap_cons, List.append_assoc]
      have hcs : cs.flatMap escapeChar = escString cs := rfl
      rw [hcs]
      unfold escapeChar
      by_cases h1 : c = '"'
      · subst h1
        rw [parseStrBody.eq_def]
        simp [escDecode, ih]
      · rw [if_neg h1]
        by_cases h2 : c = '\\'
        · subst h2
          rw [parseStrBody.eq_def]
          simp [escDecode, ih]
        · rw [if_neg h2]
          by_cases h3 : c = '\n'
          · subst h3
            rw [parseStrBody.eq_def]
            simp [escDecode, ih]
          · rw [if_neg h3]
            by_cases h4 : c = '\t'
            · subst h4
              rw [parseStrBody.eq_def]
              simp [escDecode, ih]
            · rw [if_neg h4]
              by_cases h5 : c = '\r'
              · subst h5
                rw [parseStrBody.eq_def]
                simp [escDecode, ih]
              · rw [if_neg h5]
                by_cases h6 : c = '\x08'
                · subst h6
                  rw [parseStrBody.eq_def]
                  simp [escDecode, ih]
                · rw [if_neg h6]
                  by_cases h7 : c = '\x0c'
                  · subst h7
                    rw [parseStrBody.eq_def]
                    simp [escDecode, ih]
                  · rw [if_neg h7]
                    by_cases h8 : c.toNat < 0x20
                    · rw [if_pos h8]
                      have hd2 : hexVal (hexDigitChar (c.toNat / 16)) = some (c.toNat / 16) :=
                        hexVal_hexDigitChar _ (by omega)
                      have hd3 : hexVal (hexDigitChar (c.toNat % 16)) = some (c.toNat % 16) :=
                        hexVal_hexDigitChar _ (by omega)
                      have hd1 : hexVal '0' = some 0 := rfl
                      rw [parseStrBody.eq_def]
                      simp only [List.cons_append, List.nil_append]
                      simp [hd1, hd2, hd3, ih]
                      have hxx : c.toNat / 16 * 16 + c.toNat % 16 = c.toNat := by omega
                      constructor
                      · intro hx
                        omega
                      · rw [hxx, Char.ofNat_toNat]
                    · rw [if_neg h8]
                      rw [show [c] ++ (escString cs ++ '"' :: rest)
                        = c :: (escString cs ++ '"' :: rest) from rfl, parseStrBody.eq_def]
                      simp [h1, h2, h8, ih]

/-- Helper: digit characters as produced by `natDigitsAux`. -/
theorem char_isDigit_iff (c : Char) : c.isDigit = true ↔ 48 ≤ c.toNat ∧ c.toNat ≤ 57 := by
  simp only [Char.isDigit, ge_iff_le, Bool.and_eq_true, decide_eq_true_eq]
  constructor
  · intro ⟨a, b⟩
    exact ⟨a, b⟩
  · intro ⟨a, b⟩
    exact ⟨a, b⟩

/-- Helper: every character of a decimal rendering is a digit. -/
theorem natDigitsAux_isDigit : ∀ (fuel n : Nat), n < fuel →
    ∀ c ∈ natDigitsAux fuel n, c.isDigit = true := by
  intro fuel
  induction fuel with
  | zero => intro n h; omega
  | succ fuel ih =>
    intro n hn c hc
    unfold natDigitsAux at hc
    by_cases h10 : n < 10
    · rw [if_pos h10] at hc
      simp only [List.mem_singleton] at hc
      subst hc
      rw [char_isDigit_iff, char_toNat_ofNat _ (by omega)]
      omega
    · rw [if_neg h10] at hc
      rw [List.mem_append] at hc
      rcases hc with hc | hc
      · exact ih (n / 10) (by omega) c hc
      · simp only [List.mem_singleton] at hc
        subst hc
        rw [char_isDigit_iff, char_toNat_ofNat _ (by omega)]
        omega

/-- Helper: a decimal rendering is never empty. -/
theorem natDigitsAux_ne_nil : ∀ (fuel n : Nat), 0 < fuel → natDigitsAux fuel n ≠ [] := by
  intro fuel n h
  cases fuel with
  | zero => omega
  | succ fuel =>
    unfold natDigitsAux
    by_cases h10 : n < 10
    · rw [if_pos h10]; simp
    · rw [if_neg h10]; simp

/-- Helper: `digitsToNat` over a snoc. -/
theorem digitsToNat_append (ds : List Char) (d : Char) :
    digitsToNat (ds ++ [d]) = 10 * digitsToNat ds + (d.toNat - 48) := by
  simp [digitsToNat, List.foldl_append]
  omega

/-- Helper: `digitsToNat` inverts `natDigitsAux`. -/
theorem digitsToNat_natDigitsAux : ∀ (fuel n : Nat), n < fuel →
    digitsToNat (natDigitsAux fuel n) = n := by
  intro fuel
  induction fuel with
  | zero => intro n h; omega
  | succ fuel ih =>
    intro n hn
    unfold natDigitsAux
    by_cases h10 : n < 10
    · rw [if_pos h10]
      simp [digitsToNat, char_toNat_ofNat _ (by omega : 48 + n < 0xD800)]
    · rw [if_neg h10]
      rw [digitsToNat_append, ih (n / 10) (by omega),
        char_toNat_ofNat _ (by omega : 48 + n % 10 < 0xD800)]
      omega

/-- Helper: `takeWhile` consumes exactly an all-true prefix. -/
theorem takeWhile_append_all (p : Char → Bool) :
    ∀ (ds rest : List Char), (∀ c ∈ ds, p c = true) →
      (∀ r, rest.head? = some r → p r = false) →
      (ds ++ rest).takeWhile p = ds
  | [], rest, _, hrest => by
      cases rest with
      | nil => rfl
      | cons r rs =>
        simp [List.takeWhile_cons, hrest r rfl]
  | d :: ds, rest, hds, hrest => by
      simp [List.takeWhile_cons, hds d (by simp)]
      rw [takeWhile_append_all p ds rest (fun c hc => hds c (by simp [hc])) hrest]

/-- Helper: the number parser inverts the decimal rendering. -/
theorem parseNatNum_natDigits (n : Nat) (rest : List Char)
    (hrest : ∀ r, rest.head? = some r → r.isDigit = false) :
    parseNatNum (natDigits n ++ rest) = some (n, rest) := by
  unfold parseNatNum natDigits
  rw [takeWhile_append_all Char.isDigit _ rest (natDigitsAux_isDigit (n + 1) n (by omega)) hrest]
  rw [if_neg (by simpa using natDigitsAux_ne_nil (n + 1) n (by omega))]
  rw [digitsToNat_natDigitsAux (n + 1) n (by omega), List.drop_left]

/-- Helper: a digit character is none of the parser's dispatch
characters and is not whitespace. -/
theorem isDigit_facts (c : Char) (h : c.isDigit = true) :
    jsonWs c = false ∧ c ≠ 'n' ∧ c ≠ 't' ∧ c ≠ 'f' ∧ c ≠ '"' ∧ c ≠ '[' ∧
      c ≠ '\x7b' ∧ c ≠ '-' ∧ c ≠ ']' ∧ c ≠ '\x7d' := by
  rw [char_isDigit_iff] at h
  refine ⟨?_, ?_, ?_, ?_, ?_, ?_, ?_, ?_, ?_, ?_⟩
  · simp only [jsonWs, decide_eq_false_iff_not, not_or]
    refine ⟨?_, ?_, ?_, ?_⟩ <;> (rintro rfl; exact absurd h (by decide))
  all_goals (rintro rfl; exact absurd h (by decide))

/-- Helper: a cons input whose head is a non-digit satisfies the
delimiter condition of the parse lemmas. -/
theorem headDelim (c : Char) (hc : c.isDigit = false) (t : List Char) :
    ∀ r, (c :: t).head? = some r → r.isDigit = false := by
  intro r hr
  simp only [List.head?_cons, Option.some.injEq] at hr
  rw [← hr]
  exact hc

/-- Helper: the empty remainder satisfies the delimiter condition. -/
theorem nilDelim : ∀ r : Char, ([] : List Char).head? = some r → r.isDigit = false := by
  intro r hr
  simp at hr

/-- Helper: weights are positive. -/
theorem Jweight_pos : ∀ v : Json, 1 ≤ Jweight v := by
  intro v
  cases v <;> simp [Jweight]

/-- Helper: list weights are positive. -/
theorem JweightList_pos : ∀ xs : List Json, 1 ≤ JweightList xs := by
  intro xs
  cases xs with
  | nil => simp [JweightList]
  | cons x xs => simp only [JweightList]; omega

/-- Helper: field weights are positive. -/
theorem JweightFields_pos : ∀ kvs : List (String × Json), 1 ≤ JweightFields kvs := by
  intro kvs
  cases kvs with
  | nil => simp [JweightFields]
  | cons kv kvs => cases kv; simp only [JweightFields]; omega

/-- Helper: `skipWs` keeps a non-whitespace head. -/
theorem skipWs_cons (c : Char) (t : List Char) (h : jsonWs c = false) :
    skipWs (c :: t) = c :: t := by
  simp [skipWs, List.dropWhile, h]

/-- Helper: the serialization of any value starts with a character that
is not whitespace and not a closing bracket. -/
theorem dumpsChars_head_ok : ∀ v : Json, ∃ c t, dumpsChars v = c :: t ∧
    jsonWs c = false ∧ c ≠ ']' ∧ c ≠ '\x7d'
  | .null => ⟨'n', _, rfl, by decide, by decide, by decide⟩
  | .bool true => ⟨'t', _, rfl, by decide, by decide, by decide⟩
  | .bool false => ⟨'f', _, rfl, by decide, by decide, by decide⟩
  | .str s => ⟨'"', _, rfl, by decide, by decide, by decide⟩
  | .arr xs => ⟨'[', _, rfl, by decide, by decide, by decide⟩
  | .obj kvs => ⟨'\x7b', _, rfl, by decide, by decide, by decide⟩
  | .num n => by
      by_cases hneg : n < 0
      · exact ⟨'-', natDigits n.natAbs, by simp [dumpsChars, intDumps, hneg],
          by decide, by decide, by decide⟩
      · obtain ⟨d, ds, hd⟩ : ∃ d ds, natDigits n.natAbs = d :: ds := by
          cases hh : natDigits n.natAbs with
          | nil => exact absurd hh (natDigitsAux_ne_nil _ _ (by omega))
          | cons d ds => exact ⟨d, ds, rfl⟩
        have hdig : d.isDigit = true := by
          apply natDigitsAux_isDigit (n.natAbs + 1) n.natAbs (by omega) d
          show d ∈ natDigitsAux (n.natAbs + 1) n.natAbs
          rw [show natDigitsAux (n.natAbs + 1) n.natAbs = natDigits n.natAbs from rfl, hd]
          simp
        obtain ⟨hws, _, _, _, _, _, _, _, h9, h10⟩ := isDigit_facts d hdig
        exact ⟨d, ds, by simp [dumpsChars, intDumps, hneg, hd], hws, h9, h10⟩

/-- Helper: `parseValue` ignores one leading space. -/
theorem parseValue_space (fuel : Nat) (s : List Char) :
    parseValue fuel (' ' :: s) = parseValue fuel s := by
  cases fuel with
  | zero => rfl
  | succ fuel =>
    rw [parseValue.eq_def, parseValue.eq_def]
    have h : skipWs (' ' :: s) = skipWs s := rfl
    dsimp only
    rw [h]

/-- Helper: `parseValue` dispatch for a `-` head. -/
theorem parseValue_dash (f : Nat) (t : List Char) :
    parseValue (f + 1) ('-' :: t) =
      (match parseNatNum t with
       | some (m, r) => some (Json.num (-(m : Int)), r)
       | none => none) := rfl

/-- Helper: `parseValue` dispatch for a quote head. -/
theorem parseValue_quote (f : Nat) (t : List Char) :
    parseValue (f + 1) ('"' :: t) =
      (match parseStrBody t with
       | some (content, r) => some (Json.str (String.mk content), r)
       | none => none) := rfl

/-- Helper: `parseValue` dispatch for a `[` head. -/
theorem parseValue_lbrack (f : Nat) (t : List Char) :
    parseValue (f + 1) ('[' :: t) =
      (match skipWs t with
       | ']' :: r => some (Json.arr [], r)
       | s2 => parseArrItems f s2 []) := rfl

/-- Helper: `parseValue` dispatch for an opening-brace head. -/
theorem parseValue_lbrace (f : Nat) (t : List Char) :
    parseValue (f + 1) ('{' :: t) =
      (match skipWs t with
       | '}' :: r => some (Json.obj [], r)
       | s2 => parseObjItems f s2 []) := rfl

/-- Helper: `parseValue` dispatch for a digit head. -/
theorem parseValue_digit (f : Nat) (c : Char) (t : List Char) (h : c.isDigit = true) :
    parseValue (f + 1) (c :: t) =
      (match parseNatNum (c :: t) with
       | some (m, r) => some (Json.num (m : Int), r)
       | none => none) := by
  obtain ⟨hws, h1, h2, h3, h4, h5, h6, h7, _, _⟩ := isDigit_facts c h
  rw [parseValue.eq_def]
  dsimp only
  rw [skipWs_cons _ _ hws]
  dsimp only
  rw [if_neg h1, if_neg h2, if_neg h3, if_neg h4, if_neg h5, if_neg h6, if_neg h7, if_pos h]

/-- Helper: `parseArrItems` ignores one leading space. -/
theorem parseArrItems_space (fuel : Nat) (s : List Char) (acc : List Json) :
    parseArrItems fuel (' ' :: s) acc = parseArrItems fuel s acc := by
  cases fuel with
  | zero => rfl
  | succ f =>
    rw [parseArrItems.eq_def, parseArrItems.eq_def]
    dsimp only
    rw [parseValue_space]

/-- Helper: the decimal rendering is a nonempty digit string. -/
theorem natDigits_head (m : Nat) : ∃ d ds, natDigits m = d :: ds ∧ d.isDigit = true := by
  obtain ⟨d, ds, hd⟩ : ∃ d ds, natDigits m = d :: ds := by
    cases hh : natDigits m with
    | nil => exact absurd hh (natDigitsAux_ne_nil _ _ (by omega))
    | cons d ds => exact ⟨d, ds, rfl⟩
  refine ⟨d, ds, hd, ?_⟩
  apply natDigitsAux_isDigit (m + 1) m (by omega) d
  show d ∈ natDigitsAux (m + 1) m
  rw [show natDigitsAux (m + 1) m = natDigits m from rfl, hd]
  simp

/-- Helper: the serialization of a nonempty array body starts with its
first item. -/
theorem dumpsArrItems_cons (x : Json) (xs : List Json) :
    ∃ u, dumpsArrItems (x :: xs) = dumpsChars x ++ u := by
  cases xs with
  | nil => exact ⟨[']'], rfl⟩
  | cons y ys => exact ⟨',' :: ' ' :: dumpsArrItems (y :: ys), rfl⟩

/-- Helper: the serialization of a nonempty object body starts with a
quote. -/
theorem dumpsObjItems_cons (kv : String × Json) (kvs : List (String × Json)) :
    ∃ u, dumpsObjItems (kv :: kvs) = '"' :: u := by
  obtain ⟨k, v⟩ := kv
  cases kvs with
  | nil => exact ⟨_, rfl⟩
  | cons kv2 kvs2 => exact ⟨_, rfl⟩

/-- Helper: assigning an absent key appends it. -/
theorem setField_append (acc : List (String × Json)) (k : String) (v : Json)
    (h : ∀ p ∈ acc, p.1 ≠ k) :
    setField acc k v = acc ++ [(k, v)] := by
  induction acc with
  | nil => rfl
  | cons p rest ih =>
    obtain ⟨k0, v0⟩ := p
    have hk0 : k0 ≠ k := h (k0, v0) (by simp)
    simp only [setField]
    rw [if_neg (by simpa using hk0)]
    simp only [List.cons_append, List.cons.injEq, true_and]
    exact ih (fun q hq => h q (by simp [hq]))

/-- Helper: folding `setField` over members whose keys are fresh and
mutually distinct appends them in order (Python dict construction from
distinct keys preserves order and values). -/
theorem foldAssign (kvs : List (String × Json)) (acc : List (String × Json))
    (hnd : Json.keysNodup kvs = true)
    (hdisj : ∀ kv ∈ kvs, ∀ p ∈ acc, p.1 ≠ kv.1) :
    kvs.foldl (fun a kv => setField a kv.1 kv.2) acc = acc ++ kvs := by
  induction kvs generalizing acc with
  | nil => simp
  | cons kv rest ih =>
    obtain ⟨k, v⟩ := kv
    simp only [Json.keysNodup, Bool.and_eq_true] at hnd
    obtain ⟨hk, hnd2⟩ := hnd
    simp only [List.foldl_cons]
    rw [setField_append acc k v (fun p hp => hdisj (k, v) (by simp) p hp)]
    rw [ih _ hnd2 ?_]
    · simp
    · intro kv2 h2 p hp
      rcases List.mem_append.1 hp with hp | hp
      · exact hdisj kv2 (by simp [h2]) p hp
      · simp only [List.mem_singleton] at hp
        subst hp
        simp only [Bool.not_eq_true', List.any_eq_false] at hk
        have h3 := hk kv2 h2
        exact fun h4 => h3 (beq_iff_eq.mpr h4.symm)

/-- Helper: `parseObjItems` dispatch for a quote head. -/
theorem parseObjItems_quote (f : Nat) (t : List Char) (acc : List (String × Json)) :
    parseObjItems (f + 1) ('"' :: t) acc =
      (match parseStrBody t with
       | none => none
       | some (key, r1) =>
         match skipWs r1 with
         | ':' :: r2 =>
           match parseValue f r2 with
           | none => none
           | some (v, r3) =>
             match skipWs r3 with
             | ',' :: r4 => parseObjItems f (skipWs r4) (setField acc (String.mk key) v)
             | '\x7d' :: r4 => some (Json.obj (setField acc (String.mk key) v), r4)
             | _ => none
         | _ => none) := rfl

/-- Helper: one serialized `"key": value` member step of `parseObjItems`. -/
theorem parseObjItems_step (f : Nat) (k : List Char) (T : List Char)
    (acc : List (String × Json)) :
    parseObjItems (f + 1) ('"' :: (escString k ++ '"' :: ':' :: ' ' :: T)) acc =
      (match parseValue f (' ' :: T) with
       | none => none
       | some (v, r3) =>
         match skipWs r3 with
         | ',' :: r4 => parseObjItems f (skipWs r4) (setField acc (String.mk k) v)
         | '\x7d' :: r4 => some (Json.obj (setField acc (String.mk k) v), r4)
         | _ => none) := by
  rw [parseObjItems_quote, parseStrBody_escString]
  rfl

/-- The round-trip induction: with fuel at least the value's weight,
`parseValue` parses the serialization of any well-formed value back to
that value, and the item loops parse serialized array/object bodies,
leaving exactly the given remainder, provided the remainder does not
start with a digit. -/
theorem parse_dumps (fuel : Nat) :
    (∀ v rest, Json.WF v = true → Jweight v ≤ fuel →
      (∀ r, rest.head? = some r → r.isDigit = false) →
      parseValue fuel (dumpsChars v ++ rest) = some (v, rest)) ∧
    (∀ xs acc rest, xs ≠ [] → Json.WFList xs = true → JweightList xs ≤ fuel →
      (∀ r, rest.head? = some r → r.isDigit = false) →
      parseArrItems fuel (dumpsArrItems xs ++ rest) acc = some (.arr (acc ++ xs), rest)) ∧
    (∀ kvs acc rest, kvs ≠ [] → Json.WFFields kvs = true → JweightFields kvs ≤ fuel →
      (∀ r, rest.head? = some r → r.isDigit = false) →
      parseObjItems fuel (dumpsObjItems kvs ++ rest) acc =
        some (.obj (kvs.foldl (fun a kv => setField a kv.1 kv.2) acc), rest)) := by
  induction fuel with
  | zero =>
    refine ⟨fun v rest _ hw _ => absurd hw ?_, fun xs acc rest _ _ hw _ => absurd hw ?_,
      fun kvs acc rest _ _ hw _ => absurd hw ?_⟩
    · have := Jweight_pos v; omega
    · have := JweightList_pos xs; omega
    · have := JweightFields_pos kvs; omega
  | succ f ih =>
    obtain ⟨ihv, iharr, ihobj⟩ := ih
    refine ⟨?_, ?_, ?_⟩
    · intro v rest hwf hw hrest
      cases v with
      | null => rfl
      | bool b => cases b <;> rfl
      | str s =>
        simp only [dumpsChars, List.cons_append, List.append_assoc, List.singleton_append,
          List.nil_append]
        rw [parseValue_quote, parseStrBody_escString]
      | num n =>
        by_cases hneg : n < 0
        · simp only [dumpsChars, intDumps, if_pos hneg, List.cons_append]
          rw [parseValue_dash, parseNatNum_natDigits n.natAbs rest hrest]
          have hn : -((n.natAbs : Int)) = n := by omega
          show some (Json.num (-(n.natAbs : Int)), rest) = some (Json.num n, rest)
          rw [hn]
        · obtain ⟨d, ds, hd, hdig⟩ := natDigits_head n.natAbs
          simp only [dumpsChars, intDumps, if_neg hneg, hd, List.cons_append]
          rw [parseValue_digit f d (ds ++ rest) hdig]
          rw [show d :: (ds ++ rest) = natDigits n.natAbs ++ rest from by rw [hd]; rfl]
          rw [parseNatNum_natDigits n.natAbs rest hrest]
          have hn : ((n.natAbs : Int)) = n := by omega
          show some (Json.num ((n.natAbs : Int)), rest) = some (Json.num n, rest)
          rw [hn]
      | arr xs =>
        simp only [Json.WF] at hwf
        cases xs with
        | nil => rfl
        | cons x xs =>
          have hwl : JweightList (x :: xs) ≤ f := by
            simp only [Jweight] at hw; omega
          simp only [dumpsChars, List.cons_append]
          rw [parseValue_lbrack]
          obtain ⟨u, hu⟩ := dumpsArrItems_cons x xs
          obtain ⟨c0, t0, hc0, hws0, hne1, hne2⟩ := dumpsChars_head_ok x
          rw [show dumpsArrItems (x :: xs) ++ rest = c0 :: (t0 ++ (u ++ rest)) from by
            rw [hu, hc0]; simp]
          rw [skipWs_cons _ _ hws0]
          split
          · next r heq =>
            rw [List.cons.injEq] at heq
            exact absurd heq.1 hne1
          · next =>
            rw [show c0 :: (t0 ++ (u ++ rest)) = dumpsArrItems (x :: xs) ++ rest from by
              rw [hu, hc0]; simp]
            rw [iharr (x :: xs) [] rest (by simp) hwf hwl hrest]
            simp
      | obj kvs =>
        simp only [Json.WF, Bool.and_eq_true] at hwf
        obtain ⟨hnd, hwff⟩ := hwf
        cases kvs with
        | nil => rfl
        | cons kv kvs =>
          have hwl : JweightFields (kv :: kvs) ≤ f := by
            simp only [Jweight] at hw; omega
          simp only [dumpsChars, List.cons_append]
          rw [parseValue_lbrace]
          obtain ⟨u, hu⟩ := dumpsObjItems_cons kv kvs
          rw [show dumpsObjItems (kv :: kvs) ++ rest = '"' :: (u ++ rest) from by
            rw [hu]; rfl]
          rw [skipWs_cons _ _ (by decide)]
          split
          · next r heq =>
            rw [List.cons.injEq] at heq
            exact absurd heq.1 (by decide)
          · next =>
            rw [show ('"' : Char) :: (u ++ rest) = dumpsObjItems (kv :: kvs) ++ rest from by
              rw [hu]; rfl]
            rw [ihobj (kv :: kvs) [] rest (by simp) hwff hwl hrest]
            rw [foldAssign (kv :: kvs) [] hnd (by simp)]
            simp
    · intro xs acc rest hne hwfl hwl hrest
      cases xs with
      | nil => exact absurd rfl hne
      | cons x xs =>
        simp only [Json.WFList, Bool.and_eq_true] at hwfl
        obtain ⟨hwfx, hwfl2⟩ := hwfl
        cases xs with
        | nil =>
          have hwx : Jweight x ≤ f := by
            simp only [JweightList] at hwl; omega
          rw [parseArrItems.eq_def]
          dsimp only
          rw [show dumpsArrItems [x] ++ rest = dumpsChars x ++ ']' :: rest from by
            simp [dumpsArrItems]]
          rw [ihv x (']' :: rest) hwfx hwx (headDelim ']' (by decide) rest)]
          dsimp only
          rw [skipWs_cons _ _ (by decide)]
          rfl
        | cons y ys =>
          have hwx : Jweight x ≤ f := by
            simp only [JweightList] at hwl; omega
          have hwl2 : JweightList (y :: ys) ≤ f := by
            simp only [JweightList] at hwl ⊢; omega
          rw [parseArrItems.eq_def]
          dsimp only
          rw [show dumpsArrItems (x :: y :: ys) ++ rest =
              dumpsChars x ++ ',' :: ' ' :: (dumpsArrItems (y :: ys) ++ rest) from by
            simp [dumpsArrItems]]
          rw [ihv x (',' :: ' ' :: (dumpsArrItems (y :: ys) ++ rest)) hwfx hwx
            (headDelim ',' (by decide) _)]
          show parseArrItems f (' ' :: (dumpsArrItems (y :: ys) ++ rest)) (acc ++ [x]) =
            some (Json.arr (acc ++ x :: y :: ys), rest)
          rw [parseArrItems_space]
          rw [iharr (y :: ys) (acc ++ [x]) rest (by simp) hwfl2 hwl2 hrest]
          simp
    · intro kvs acc rest hne hwff hwl hrest
      cases kvs with
      | nil => exact absurd rfl hne
      | cons kv kvs =>
        obtain ⟨k, v⟩ := kv
        simp only [Json.WFFields, Bool.and_eq_true] at hwff
        obtain ⟨hwfv, hwff2⟩ := hwff
        cases kvs with
        | nil =>
          have hwv : Jweight v ≤ f := by
            simp only [JweightFields] at hwl; omega
          rw [show dumpsObjItems [(k, v)] ++ rest =
              '"' :: (escString k.data ++ '"' :: ':' :: ' ' ::
                (dumpsChars v ++ '\x7d' :: rest)) from by
            simp [dumpsObjItems]]
          rw [parseObjItems_step]
          rw [parseValue_space]
          rw [ihv v ('\x7d' :: rest) hwfv hwv (headDelim '\x7d' (by decide) rest)]
          rfl
        | cons kv2 kvs2 =>
          have hwv : Jweight v ≤ f := by
            simp only [JweightFields] at hwl; omega
          have hwl2 : JweightFields (kv2 :: kvs2) ≤ f := by
            simp only [JweightFields] at hwl ⊢; omega
          obtain ⟨u, hu⟩ := dumpsObjItems_cons kv2 kvs2
          rw [show dumpsObjItems ((k, v) :: kv2 :: kvs2) ++ rest =
              '"' :: (escString k.data ++ '"' :: ':' :: ' ' :: (dumpsChars v ++
                ',' :: ' ' :: (dumpsObjItems (kv2 :: kvs2) ++ rest))) from by
            simp [dumpsObjItems]]
          rw [parseObjItems_step]
          rw [parseValue_space]
          rw [ihv v (',' :: ' ' :: (dumpsObjItems (kv2 :: kvs2) ++ rest)) hwfv hwv
            (headDelim ',' (by decide) _)]
          show parseObjItems f (skipWs (' ' :: (dumpsObjItems (kv2 :: kvs2) ++ rest)))
              (setField acc k v) =
            some (Json.obj (List.foldl (fun a kv => setField a kv.1 kv.2) acc
              ((k, v) :: kv2 :: kvs2)), rest)
          rw [show skipWs (' ' :: (dumpsObjItems (kv2 :: kvs2) ++ rest)) =
              dumpsObjItems (kv2 :: kvs2) ++ rest from by
            rw [hu]
            show skipWs ('"' :: (u ++ rest)) = ('"' :: u) ++ rest
            rw [skipWs_cons _ _ (by decide)]
            rfl]
          rw [ihobj (kv2 :: kvs2) (setField acc k v) rest (by simp) hwff2 hwl2 hrest]
          rfl

/-- Helper: a value's weight is at most twice its serialized length
(so the fuel `json_loads` supplies always suffices). -/
theorem Jweight_le (fuel : Nat) :
    (∀ v, Jweight v ≤ fuel → Jweight v + 1 ≤ 2 * (dumpsChars v).length) ∧
    (∀ xs, JweightList xs ≤ fuel → JweightList xs + 1 ≤ 2 * (dumpsArrItems xs).length) ∧
    (∀ kvs, JweightFields kvs ≤ fuel →
      JweightFields kvs + 1 ≤ 2 * (dumpsObjItems kvs).length) := by
  induction fuel with
  | zero =>
    refine ⟨fun v h => absurd h ?_, fun xs h => absurd h ?_, fun kvs h => absurd h ?_⟩
    · have := Jweight_pos v; omega
    · have := JweightList_pos xs; omega
    · have := JweightFields_pos kvs; omega
  | succ f ih =>
    obtain ⟨ihv, ihl, ihf⟩ := ih
    refine ⟨?_, ?_, ?_⟩
    · intro v hw
      cases v with
      | null => simp [Jweight, dumpsChars]
      | bool b => cases b <;> simp [Jweight, dumpsChars]
      | str s => simp [Jweight, dumpsChars]
      | num n =>
        obtain ⟨d, ds, hd, _⟩ := natDigits_head n.natAbs
        simp only [Jweight, dumpsChars, intDumps]
        by_cases hneg : n < 0 <;>
          simp [hneg, hd]
      | arr xs =>
        have h1 : JweightList xs ≤ f := by simp only [Jweight] at hw; omega
        have h2 := ihl xs h1
        simp only [Jweight, dumpsChars, List.length_cons]
        omega
      | obj kvs =>
        have h1 : JweightFields kvs ≤ f := by simp only [Jweight] at hw; omega
        have h2 := ihf kvs h1
        simp only [Jweight, dumpsChars, List.length_cons]
        omega
    · intro xs hw
      cases xs with
      | nil => simp [JweightList, dumpsArrItems]
      | cons x xs =>
        have hx : Jweight x ≤ f := by simp only [JweightList] at hw; omega
        have h2 := ihv x hx
        cases xs with
        | nil =>
          simp only [JweightList, dumpsArrItems, List.length_append, List.length_cons,
            List.length_nil]
          omega
        | cons y ys =>
          have hl : JweightList (y :: ys) ≤ f := by
            simp only [JweightList] at hw ⊢; omega
          have h3 := ihl (y :: ys) hl
          simp only [JweightList] at hw h3 ⊢
          simp only [dumpsArrItems, List.length_append, List.length_cons]
          omega
    · intro kvs hw
      cases kvs with
      | nil => simp [JweightFields, dumpsObjItems]
      | cons kv kvs =>
        obtain ⟨k, v⟩ := kv
        have hx : Jweight v ≤ f := by simp only [JweightFields] at hw; omega
        have h2 := ihv v hx
        cases kvs with
        | nil =>
          simp only [JweightFields, dumpsObjItems, List.length_append, List.length_cons,
            List.length_nil]
          omega
        | cons kv2 kvs2 =>
          have hl : JweightFields (kv2 :: kvs2) ≤ f := by
            simp only [JweightFields] at hw ⊢; omega
          have h3 := ihf (kv2 :: kvs2) hl
          simp only [JweightFields] at hw h3 ⊢
          simp only [dumpsObjItems, List.length_append, List.length_cons]
          omega

/-- `json.loads` inverts `json.dumps` on any value with nodup object
keys (every dict serialized by the cache layer is such a value). -/
theorem json_loads_dumps (v : Json) (h : Json.WF v = true) :
    json_loads (json_dumps v) = .ok v := by
  have hb : Jweight v ≤ 2 * (String.mk (dumpsChars v)).length + 4 := by
    have h1 := (Jweight_le (Jweight v)).1 v le_rfl
    have h2 : (String.mk (dumpsChars v)).length = (dumpsChars v).length := rfl
    omega
  have hp := (parse_dumps (2 * (String.mk (dumpsChars v)).length + 4)).1 v [] h hb nilDelim
  rw [List.append_nil] at hp
  show (match parseValue (2 * (String.mk (dumpsChars v)).length + 4) (dumpsChars v) with
        | some (w, rest) => if (skipWs rest).isEmpty then Except.ok w else Except.error ()
        | none => Except.error ()) = Except.ok v
  rw [hp]
  rfl

/-- C10: `PaperParser.parse_paper` treats a JSON string and its parsed
dictionary identically: for every dictionary `d` (modelled as a `Json`
value whose objects have distinct keys, as every Python dict has),
`parse_paper` applied to the JSON serialization of `d` returns the same
structure as `parse_paper` applied to `d` itself. -/
theorem C10_string_dict_equiv (d : Json) (hwf : Json.WF d = true) :
    parse_paper (.text (json_dumps d)) = parse_paper (.data d) :=
  parse_paper_text_ok _ _ (json_loads_dumps d hwf)

theorem C10_string_dict_equiv_witness :
    Json.WF (Json.obj [("pages", Json.arr [Json.obj [("markdown", Json.str "Hi")]])]) = true ∧
    parse_paper (.text (json_dumps
        (Json.obj [("pages", Json.arr [Json.obj [("markdown", Json.str "Hi")]])]))) =
      parse_paper (.data
        (Json.obj [("pages", Json.arr [Json.obj [("markdown", Json.str "Hi")]])])) :=
  ⟨by decide, C10_string_dict_equiv _ (by decide)⟩

end PaperAnalyzer
